import Mathlib

/-!
Verification of the DEXON governance contract (core/vm/oracle_contracts.go)
against its natural-language specification.

The Go source is shallowly embedded:
  * the flat Solidity-style word store used by readBytes/writeBytes is
    modelled as an association list keyed by an inductive location type
    (a base slot, or the i-th data word hanging off a slot: the code
    computes data locations as keccak(slot)+i, which is collision-free
    for the inputs the contract uses);
  * the registry / DKG / fine business logic is modelled at the object
    level: every storage getter/setter of GovernanceState becomes a field
    access or functional update on a GovState record, mirroring the exact
    read/write order of the Go handlers.  Mappings store offset+1 with 0
    meaning absent, exactly as the contract does;
  * big.Int amounts are Int (arbitrary precision, no truncation),
    timestamps and rounds are Nat;
  * external collaborators (secp256k1 decoding, RLP decoding, signature
    and misbehaviour verifiers, the sortition primitive) are opaque in the
    source and enter the model as explicit parameters of the handlers;
  * each handler returns (CallResult, GovState); on any failing result the
    returned state is the caller-visible committed state, i.e. the input
    state, because the EVM discards every write of a reverted call.
-/

namespace DexonGov

/-- Outcome classification of a governance call, matching the source's
error discipline: success, errExecutionReverted (soft reject),
penalize() (all remaining gas burnt + revert), and panic (fatal). -/
inductive CallResult where
  | success   : CallResult
  | rejected  : CallResult
  | penalized : CallResult
  | fatal     : CallResult
deriving DecidableEq, Repr

/-- First-match association-list lookup with a default, modelling a
Solidity mapping read (an unset key reads as the zero value). -/
def mlookup {α β : Type} [DecidableEq α] (d : β) : List (α × β) → α → β
  | [], _ => d
  | (k, v) :: m, k' => if k' = k then v else mlookup d m k'

/-- Mapping write: prepend; mlookup returns the newest binding. -/
def mset {α β : Type} (m : List (α × β)) (k : α) (v : β) : List (α × β) :=
  (k, v) :: m

theorem mlookup_mset {α β : Type} [DecidableEq α] (d : β) (m : List (α × β))
    (k k' : α) (v : β) :
    mlookup d (mset m k v) k' = if k' = k then v else mlookup d m k' := rfl

/-- Node record (struct Node in the source); amounts are big.Int. -/
structure NodeInfo where
  owner     : Nat
  publicKey : List Nat
  staked    : Int
  fined     : Int
  name      : List Nat
  email     : List Nat
  location  : List Nat
  url       : List Nat
deriving DecidableEq, Repr

/-- Zero node, what Node(offset) decodes from untouched storage. -/
def zeroNode : NodeInfo :=
  { owner := 0, publicKey := [], staked := 0, fined := 0,
    name := [], email := [], location := [], url := [] }

/-- Delegator record (struct Delegator in the source);
undelegatedAt = 0 means still delegated. -/
structure DelegatorInfo where
  owner         : Nat
  value         : Int
  undelegatedAt : Nat
deriving DecidableEq, Repr

/-- Whole governance contract state: each field is one storage-rooted
variable of GovernanceState.  Reverse-index mappings store offset+1
(0 = absent) exactly as the contract does. -/
structure GovState where
  nodes           : List NodeInfo
  offsByAddr      : List (Nat × Nat)
  offsByNodeKey   : List (Nat × Nat)
  delegators      : List (Nat × List DelegatorInfo)
  delOff          : List ((Nat × Nat) × Nat)
  totalStaked     : Int
  balances        : List (Nat × Int)
  lockupPeriod    : Nat
  dkgRound        : Nat
  dkgMPKs         : List (List Nat)
  dkgComplaints   : List (List Nat)
  mpkReadyFlags   : List (Nat × Bool)
  readysCount     : Nat
  finalizedFlags  : List (Nat × Bool)
  finalizedsCount : Nat
  dkgSetSize      : Nat
  fineValues      : List Int
  finedRecords    : List (List Nat)
deriving DecidableEq, Repr

/-- The fixed address holding the staked funds
(GovernanceContractAddress). -/
def govContractAddr : Nat := 1

/-- Node(index): an in-range index reads the stored record, anything else
decodes untouched storage, i.e. the zero node. -/
def nodeAt (st : GovState) (i : Nat) : NodeInfo := st.nodes.getD i zeroNode

/-- UpdateNode(index, n). -/
def updateNode (st : GovState) (i : Nat) (n : NodeInfo) : GovState :=
  { st with nodes := st.nodes.set i n }

/-- Delegator list of a node address (mapping(address => Delegator[])). -/
def delegsOf (st : GovState) (nodeAddr : Nat) : List DelegatorInfo :=
  mlookup [] st.delegators nodeAddr

/-- Zero delegator, read from untouched storage. -/
def zeroDelegator : DelegatorInfo := { owner := 0, value := 0, undelegatedAt := 0 }

/-- Delegator(nodeAddr, offset). -/
def delegatorAt (st : GovState) (nodeAddr : Nat) (i : Nat) : DelegatorInfo :=
  (delegsOf st nodeAddr).getD i zeroDelegator

def setDelegs (st : GovState) (nodeAddr : Nat) (ds : List DelegatorInfo) : GovState :=
  { st with delegators := mset st.delegators nodeAddr ds }

/-- NodesOffsetByAddress reads a raw Nat; the source subtracts 1 and
compares with 0, so raw = 0 encodes "absent". -/
def rawOffsByAddr (st : GovState) (a : Nat) : Nat := mlookup 0 st.offsByAddr a

def rawOffsByNodeKey (st : GovState) (a : Nat) : Nat := mlookup 0 st.offsByNodeKey a

def rawDelOff (st : GovState) (nodeAddr d : Nat) : Nat :=
  mlookup 0 st.delOff (nodeAddr, d)

def balanceOf (st : GovState) (a : Nat) : Int := mlookup 0 st.balances a

/-- Value-transfer port: CanTransfer then Transfer, as g.transfer does. -/
def canTransfer (st : GovState) (from_ : Nat) (amount : Int) : Bool :=
  decide (amount ≤ balanceOf st from_)

def doTransfer (st : GovState) (src dst : Nat) (amount : Int) : GovState :=
  let st1 := { st with balances := mset st.balances src (balanceOf st src - amount) }
  { st1 with balances := mset st1.balances dst (balanceOf st1 dst + amount) }

/-! ### Node and delegation registry handlers

Each handler takes the caller (contract.Caller()), the decoded
arguments, the logical block time where the source reads evm.Time, and a
parameter pubKeyAddr standing for publicKeyToNodeKeyAddress
(crypto.UnmarshalPubkey + PubkeyToAddress), which is external code. -/

/-- GovernanceContract.delegate.  value is contract.Value(). -/
def delegate (st : GovState) (caller nodeAddr : Nat) (value : Int) :
    CallResult × GovState :=
  let rawOff := rawOffsByAddr st nodeAddr
  if rawOff = 0 then (.rejected, st) else
  let offset := rawOff - 1
  -- Can not delegate if no fund was sent.
  if value = 0 then (.rejected, st) else
  -- Can not delegate if already delegated.
  if rawDelOff st nodeAddr caller ≠ 0 then (.rejected, st) else
  -- Add to the total staked of node.
  let node := nodeAt st offset
  let st1 := updateNode st offset { node with staked := node.staked + value }
  -- Add to network total staked.
  let st2 := { st1 with totalStaked := st1.totalStaked + value }
  -- Push delegator record and its reverse index (stored as offset+1).
  let dOff := (delegsOf st2 nodeAddr).length
  let st3 := setDelegs st2 nodeAddr
    (delegsOf st2 nodeAddr ++ [{ owner := caller, value := value, undelegatedAt := 0 }])
  let st4 := { st3 with delOff := mset st3.delOff (nodeAddr, caller) (dOff + 1) }
  (.success, st4)

/-- GovernanceContract.stake.  A failing publicKeyToNodeKeyAddress inside
PutNodeOffsets makes the call penalize; any error from the nested
self-delegation propagates and reverts the whole call. -/
def stake (pubKeyAddr : List Nat → Option Nat) (st : GovState) (caller : Nat)
    (value : Int) (publicKey name email location url : List Nat) :
    CallResult × GovState :=
  -- Reject invalid inputs.
  if 32 ≤ name.length ∨ 32 ≤ email.length ∨ 32 ≤ location.length ∨
      128 ≤ url.length then (.penalized, st) else
  -- Can not stake if already staked.
  if rawOffsByAddr st caller ≠ 0 then (.rejected, st) else
  let offset := st.nodes.length
  let node : NodeInfo :=
    { owner := caller, publicKey := publicKey, staked := 0, fined := 0,
      name := name, email := email, location := location, url := url }
  let st1 := { st with nodes := st.nodes ++ [node] }
  match pubKeyAddr publicKey with
  | none => (.penalized, st)
  | some nk =>
    let st2 := { st1 with offsByNodeKey := mset st1.offsByNodeKey nk (offset + 1) }
    let st3 := { st2 with offsByAddr := mset st2.offsByAddr caller (offset + 1) }
    -- Delegate fund to itself.
    if value > 0 then
      match delegate st3 caller caller value with
      | (.success, st4) => (.success, st4)
      | (r, _) => (r, st)
    else (.success, st3)

/-- GovernanceContract.undelegateHelper; now is evm.Time. -/
def undelegateHelper (st : GovState) (nodeAddr caller : Nat) (now : Nat) :
    CallResult × GovState :=
  let rawNodeOff := rawOffsByAddr st nodeAddr
  if rawNodeOff = 0 then (.rejected, st) else
  let nodeOffset := rawNodeOff - 1
  let rawDOff := rawDelOff st nodeAddr caller
  if rawDOff = 0 then (.rejected, st) else
  let offset := rawDOff - 1
  let node := nodeAt st nodeOffset
  if node.fined > 0 then (.rejected, st) else
  let d := delegatorAt st nodeAddr offset
  if d.undelegatedAt ≠ 0 then (.rejected, st) else
  -- Set undelegate time.
  let st1 := setDelegs st nodeAddr
    ((delegsOf st nodeAddr).set offset { d with undelegatedAt := now })
  -- Subtract from the total staked of node.
  let st2 := updateNode st1 nodeOffset { node with staked := node.staked - d.value }
  -- Subtract from network total staked.
  let st3 := { st2 with totalStaked := st2.totalStaked - d.value }
  (.success, st3)

/-- GovernanceContract.undelegate. -/
def undelegate (st : GovState) (caller nodeAddr : Nat) (now : Nat) :
    CallResult × GovState :=
  undelegateHelper st nodeAddr caller now

/-- The delegator swap-delete block of withdraw: overwrite the removed
row with the last row (rewriting the moved row's reverse index) unless it
is the last one, delete the caller's reverse index, pop the last row. -/
def removeDelegator (st : GovState) (nodeAddr caller : Nat) (offset : Nat) :
    GovState :=
  let lastIndex := (delegsOf st nodeAddr).length - 1
  if offset ≠ lastIndex then
    -- Swap branch: PopLastDelegator then pops the list UpdateDelegator
    -- just wrote, i.e. the original list with the last row copied onto
    -- the removed slot.
    let lastD := delegatorAt st nodeAddr lastIndex
    let stA := setDelegs st nodeAddr ((delegsOf st nodeAddr).set offset lastD)
    let st1 := { stA with delOff := mset stA.delOff (nodeAddr, lastD.owner) (offset + 1) }
    let st2 := { st1 with delOff := mset st1.delOff (nodeAddr, caller) 0 }
    setDelegs st2 nodeAddr ((delegsOf st nodeAddr).set offset lastD).dropLast
  else
    let st2 := { st with delOff := mset st.delOff (nodeAddr, caller) 0 }
    setDelegs st2 nodeAddr (delegsOf st nodeAddr).dropLast

/-- The node swap-delete block of withdraw, parametric in the array
offset it compares and writes to.  The source reuses the variable
`offset` - the caller's DELEGATOR offset - for this slot, not the node's
own offset, so withdraw below passes the delegator offset here.  The
moved node gets both its reverse indices rewritten (PutNodeOffsets,
whose publicKey decode failure panics, modelled as none); the removed
node only loses its owner-address index entry -
DeleteNodesOffsetByNodeKeyAddress is never called. -/
def removeNode (pubKeyAddr : List Nat → Option Nat) (st : GovState)
    (nodeAddr : Nat) (offset : Nat) : Option GovState :=
  let nlast := st.nodes.length - 1
  if offset ≠ nlast then
    let lastN := nodeAt st nlast
    match pubKeyAddr lastN.publicKey with
    | none => none
    | some nk =>
      let st5 := updateNode st offset lastN
      let st6 := { st5 with offsByNodeKey := mset st5.offsByNodeKey nk (offset + 1) }
      let st7 := { st6 with offsByAddr := mset st6.offsByAddr lastN.owner (offset + 1) }
      let st8 := { st7 with offsByAddr := mset st7.offsByAddr nodeAddr 0 }
      some { st8 with nodes := st8.nodes.dropLast }
  else
    let st8 := { st with offsByAddr := mset st.offsByAddr nodeAddr 0 }
    some { st8 with nodes := st8.nodes.dropLast }

/-- GovernanceContract.withdraw.  nodeOffset is read only for the
existence check and never used again: the node-removal block at the end
branches on and writes to `offset`, the caller's DELEGATOR offset (the
source's `offset.Cmp(lastIndex)` / `UpdateNode(offset, lastNode)` reuse
the variable read from DelegatorsOffset). -/
def withdraw (pubKeyAddr : List Nat → Option Nat) (st : GovState)
    (caller nodeAddr : Nat) (now : Nat) : CallResult × GovState :=
  let rawNodeOff := rawOffsByAddr st nodeAddr
  if rawNodeOff = 0 then (.rejected, st) else
  let rawDOff := rawDelOff st nodeAddr caller
  if rawDOff = 0 then (.rejected, st) else
  let offset := rawDOff - 1
  let d := delegatorAt st nodeAddr offset
  -- Not yet undelegated.
  if d.undelegatedAt = 0 then (.penalized, st) else
  if now ≤ d.undelegatedAt + st.lockupPeriod then (.penalized, st) else
  -- Delete the delegator.
  let st3 := removeDelegator st nodeAddr caller offset
  -- Return the staked fund.
  if ¬ canTransfer st3 govContractAddr d.value then (.rejected, st) else
  let st4 := doTransfer st3 govContractAddr d.owner d.value
  -- Last delegator withdrawn: remove the node info.
  if (delegsOf st4 nodeAddr).length = 0 then
    match removeNode pubKeyAddr st4 nodeAddr offset with
    | none => (.fatal, st)   -- PutNodeOffsets error panics here.
    | some st9 => (.success, st9)
  else (.success, st4)

/-- The delegator loop of GovernanceContract.unstake: processes row
indices i-1, i-2, ..., 0 of the caller's mutating delegator list, exactly
the source's descending loop; none if some undelegateHelper call fails,
which makes the whole unstake call revert. -/
def unstakeFrom (caller : Nat) (now : Nat) : GovState → Nat → Option GovState
  | st, 0 => some st
  | st, i + 1 =>
    let d := delegatorAt st caller i
    match undelegateHelper st caller d.owner now with
    | (.success, st1) => unstakeFrom caller now st1 i
    | _ => none

/-- GovernanceContract.unstake. -/
def unstake (st : GovState) (caller : Nat) (now : Nat) : CallResult × GovState :=
  let rawOff := rawOffsByAddr st caller
  if rawOff = 0 then (.rejected, st) else
  let node := nodeAt st (rawOff - 1)
  if node.fined > 0 then (.rejected, st) else
  match unstakeFrom caller now st (delegsOf st caller).length with
  | some st1 => (.success, st1)
  | none => (.rejected, st)

/-! ### Fine / misbehaviour ledger -/

/-- Lexicographic byte-string order of bytes.Compare: a proper
initial segment sorts before its extensions. -/
def lexLe : List Nat → List Nat → Bool
  | [], _ => true
  | _ :: _, [] => false
  | a :: as, b :: bs => if a < b then true else if b < a then false else lexLe as bs

def insertSorted (x : List Nat) : List (List Nat) → List (List Nat)
  | [] => [x]
  | y :: ys => if lexLe x y then x :: y :: ys else y :: insertSorted x ys

/-- sort.Sort(sortBytes(payloads)): the sorted rearrangement of the
payload list (duplicates are identical byte strings, so the sorted list
is unique and insertion sort computes it). -/
def sortPayloads : List (List Nat) → List (List Nat)
  | [] => []
  | x :: xs => insertSorted x (sortPayloads xs)

/-- Dedup key of fine(): Keccak256Hash over the concatenation of the
sorted payloads.  Keccak is modelled as injective, so the key is the
concatenation itself. -/
def fineKey (payloads : List (List Nat)) : List Nat :=
  (sortPayloads payloads).flatten

/-- Outcomes of the internal GovernanceContract.fine helper. -/
inductive FineOutcome where
  | ok           : FineOutcome
  | alreadyFined : FineOutcome   -- errors.New("already fined")
  | reverted     : FineOutcome   -- errExecutionReverted (node not found)
deriving DecidableEq, Repr

/-- GovernanceContract.fine.  On an error outcome the enclosing call
reverts, so the input state is returned. -/
def fine (st : GovState) (nodeAddr : Nat) (amount : Int)
    (payloads : List (List Nat)) : FineOutcome × GovState :=
  let key := fineKey payloads
  if key ∈ st.finedRecords then (.alreadyFined, st) else
  let st1 := { st with finedRecords := key :: st.finedRecords }
  let rawNodeOff := rawOffsByAddr st1 nodeAddr
  if rawNodeOff = 0 then (.reverted, st) else
  let nodeOffset := rawNodeOff - 1
  let node := nodeAt st1 nodeOffset
  let st2 := updateNode st1 nodeOffset { node with fined := node.fined + amount }
  (.ok, st2)

/-- Decoded fork artifact: only the proposer matters to the core; the
field stands for idToAddress(ProposerID) of the decoded vote or block. -/
structure ForkArtifact where
  proposerAddr : Nat
deriving DecidableEq, Repr

/-- Shared tail of GovernanceContract.report once the proposer of the
offending pair is known: resolve the owning node through the node-key
index (an absent entry reads the zero node) and fine it with the
fine-value table entry for the report type. -/
def reportApplyFine (st : GovState) (reportType : Nat) (a b : List Nat)
    (proposerAddr : Nat) : CallResult × GovState :=
  let rawOff := rawOffsByNodeKey st proposerAddr
  let node := if rawOff = 0 then zeroNode else nodeAt st (rawOff - 1)
  let fineValue := st.fineValues.getD reportType 0
  match fine st node.owner fineValue [a, b] with
  | (.ok, st1) => (.success, st1)
  | _ => (.rejected, st)

/-- GovernanceContract.report.  ReportTypeForkVote = 1 and
ReportTypeForkBlock = 2; decodeVote / decodeBlock stand for
rlp.DecodeBytes into a Vote / Block, and the needPenalty parameters for
coreUtils.NeedPenaltyForkVote / NeedPenaltyForkBlock (false also covers
a verifier error, which the source treats the same way). -/
def report (decodeVote : List Nat → Option ForkArtifact)
    (needPenaltyVote : ForkArtifact → ForkArtifact → Bool)
    (decodeBlock : List Nat → Option ForkArtifact)
    (needPenaltyBlock : ForkArtifact → ForkArtifact → Bool)
    (st : GovState) (reportType : Nat) (a b : List Nat) :
    CallResult × GovState :=
  if reportType = 1 then
    match decodeVote a with
    | none => (.penalized, st)
    | some v1 =>
      match decodeVote b with
      | none => (.penalized, st)
      | some v2 =>
        if ¬ needPenaltyVote v1 v2 then (.penalized, st)
        else reportApplyFine st reportType a b v1.proposerAddr
  else if reportType = 2 then
    match decodeBlock a with
    | none => (.penalized, st)
    | some b1 =>
      match decodeBlock b with
      | none => (.penalized, st)
      | some b2 =>
        if ¬ needPenaltyBlock b1 b2 then (.penalized, st)
        else reportApplyFine st reportType a b b1.proposerAddr
  else (.penalized, st)

/-! ### DKG protocol state machine

round is the argument, evmRound is evm.Round.  The oracle booleans stand
for the opaque external collaborators: rlp decoding, DKG-set membership
of the decoded proposer, and signature verification. -/

/-- PutDKGMPKReady(addr, false) / PutDKGFinalized(addr, false) over a
DKG set, as ClearDKGMPKReady / ClearDKGFinalized do. -/
def clearFlags (flags : List (Nat × Bool)) (dkgSet : List Nat) :
    List (Nat × Bool) :=
  dkgSet.foldl (fun m a => mset m a false) flags

/-- GovernanceContract.clearDKG; dkgSet is getDKGSet(evm.Round) mapped
through idToAddress. -/
def clearDKG (dkgSet : List Nat) (st : GovState) : GovState :=
  { st with
    dkgMPKs := [],
    dkgComplaints := [],
    mpkReadyFlags := clearFlags st.mpkReadyFlags dkgSet,
    readysCount := 0,
    finalizedFlags := clearFlags st.finalizedFlags dkgSet,
    finalizedsCount := 0 }

/-- The round-advance prologue of addDKGMasterPublicKey: on the first
submission for a new round (dkgRound still equals evm.Round) clear the
DKG state and advance dkgRound. -/
def dkgPrepare (round evmRound : Nat) (dkgSet : List Nat) (st : GovState) :
    GovState :=
  if st.dkgRound = evmRound then
    { clearDKG dkgSet st with dkgRound := round }
  else st

/-- The byzantine gate threshold the source computes:
2 * (dkgSetSize / 3) in integer arithmetic. -/
def dkgGateThreshold (st : GovState) : Nat := 2 * (st.dkgSetSize / 3)

/-- GovernanceContract.addDKGMasterPublicKey. -/
def addDKGMasterPublicKey (st : GovState) (caller : Nat) (round evmRound : Nat)
    (mpk : List Nat) (dkgSet : List Nat)
    (decodeOk proposerInSet sigOk : Bool) : CallResult × GovState :=
  if round ≠ evmRound + 1 then (.rejected, st) else
  let st1 := dkgPrepare round evmRound dkgSet st
  -- Can not add dkg mpk if not staked.
  if rawOffsByNodeKey st1 caller = 0 then (.rejected, st) else
  -- MPKReady caller is not allowed to propose mpk.
  if mlookup false st1.mpkReadyFlags caller then (.penalized, st) else
  -- If 2f + 1 of DKG set is mpk ready, one can not propose mpk anymore.
  if st1.readysCount > dkgGateThreshold st1 then (.rejected, st) else
  if ¬ decodeOk then (.penalized, st) else
  if ¬ proposerInSet then (.penalized, st) else
  if ¬ sigOk then (.penalized, st) else
  (.success, { st1 with dkgMPKs := st1.dkgMPKs ++ [mpk] })

/-- GovernanceContract.addDKGComplaint.  accusedAddr stands for
idToAddress(complaint.PrivateShare.ProposerID); mpkFound for a successful
GetDKGMasterPublicKeyByProposerID; complaintOk for VerifyDKGComplaint;
needErr / need for the NeedPenaltyDKGPrivateShare result. -/
def addDKGComplaint (st : GovState) (caller : Nat) (round evmRound : Nat)
    (comp : List Nat)
    (decodeOk proposerInSet sigOk mpkFound complaintOk needErr need : Bool)
    (accusedAddr : Nat) : CallResult × GovState :=
  if round ≠ evmRound + 1 then (.rejected, st) else
  -- Can not add complaint if caller does not exist.
  if rawOffsByNodeKey st caller = 0 then (.rejected, st) else
  -- Finalized caller is not allowed to propose complaint.
  if mlookup false st.finalizedFlags caller then (.penalized, st) else
  -- If 2f + 1 of DKG set is finalized, one can not propose complaint anymore.
  if st.finalizedsCount > dkgGateThreshold st then (.rejected, st) else
  if ¬ decodeOk then (.penalized, st) else
  if ¬ proposerInSet then (.penalized, st) else
  if ¬ sigOk then (.penalized, st) else
  if ¬ mpkFound then (.penalized, st) else
  if ¬ complaintOk then (.penalized, st) else
  if needErr then (.penalized, st) else
  if need then
    -- Fine the attacker with the InvalidDKG fine value (index 0).
    let fineValue := st.fineValues.getD 0 0
    let rawOff := rawOffsByNodeKey st accusedAddr
    let node := if rawOff = 0 then zeroNode else nodeAt st (rawOff - 1)
    match fine st node.owner fineValue [comp, []] with
    | (.ok, st1) => (.success, { st1 with dkgComplaints := st1.dkgComplaints ++ [comp] })
    | _ => (.penalized, st)
  else (.success, { st with dkgComplaints := st.dkgComplaints ++ [comp] })

/-- GovernanceContract.addDKGFinalize. -/
def addDKGFinalize (st : GovState) (caller : Nat) (round evmRound : Nat)
    (decodeOk proposerInSet sigOk : Bool) : CallResult × GovState :=
  if round ≠ evmRound + 1 then (.rejected, st) else
  if ¬ decodeOk then (.penalized, st) else
  if ¬ proposerInSet then (.penalized, st) else
  if ¬ sigOk then (.penalized, st) else
  if mlookup false st.finalizedFlags caller then (.success, st)
  else
    (.success, { st with
      finalizedFlags := mset st.finalizedFlags caller true,
      finalizedsCount := st.finalizedsCount + 1 })

/-! ### Storage encoding layer (readBytes / writeBytes)

The flat 32-byte-word store is modelled wholesale: a storage cell holds
the Nat value of its 32-byte word (getStateBigInt).  A location is
either a base slot or the i-th data word of a slot; the source computes
the latter as keccak(slot) + i, which never collides with a base slot
for the contract's inputs, so the inductive keying is faithful. -/

inductive StLoc where
  | base : Nat → StLoc
  | dataWord : Nat → Nat → StLoc
deriving DecidableEq, Repr

/-- Word store; an untouched cell reads 0. -/
def Store := List (StLoc × Nat)

def getWord (st : Store) (l : StLoc) : Nat := mlookup 0 st l

def setWord (st : Store) (l : StLoc) (v : Nat) : Store := mset st l v

/-- Structural helper for natBytes: the first argument is fuel bounding
the number of base-256 digits, so the definition reduces by rfl. -/
def natBytesF : Nat → Nat → List Nat
  | 0, _ => []
  | _ + 1, 0 => []
  | fuel + 1, n + 1 => natBytesF fuel ((n + 1) / 256) ++ [(n + 1) % 256]

/-- big.Int.Bytes(): minimal big-endian byte string (leading zeros
stripped, 0 becomes the empty string). -/
def natBytes (n : Nat) : List Nat := natBytesF n n

/-- big-endian byte string to Nat (common.BytesToHash + SetBytes). -/
def bytesToNat (bs : List Nat) : Nat := bs.foldl (fun acc b => acc * 256 + b) 0

/-- common.Hash.Bytes(): the full 32-byte word, big-endian. -/
def natBytes32 (n : Nat) : List Nat :=
  List.replicate (32 - (natBytes n).length) 0 ++ natBytes n

/-- GovernanceState.readBytes. -/
def readBytes (st : Store) (l : Nat) : List Nat :=
  let rawLength := getWord st (.base l)
  let lengthByte := rawLength % 256
  if lengthByte % 2 = 0 then
    -- Bytes length <= 31: take the advertised prefix of rawLength.Bytes().
    (natBytes rawLength).take (lengthByte / 2)
  else
    let length := (rawLength - 1) / 2
    let chunks := length / 32 + (if length % 32 > 0 then 1 else 0)
    let data := ((List.range chunks).map
      (fun i => natBytes32 (getWord st (.dataWord l i)))).flatten
    data.take length

/-- GovernanceState.writeBytes.  Bytes are Nats < 256 in every use. -/
def writeBytes (st : Store) (l : Nat) (data : List Nat) : Store :=
  let length := data.length
  if length = 0 then setWord st (.base l) 0
  else if length < 32 then
    -- Short form: data right-padded to 31 bytes, low byte length*2.
    setWord st (.base l) (bytesToNat (data ++ List.replicate (31 - length) 0 ++ [length * 2]))
  else
    -- Long form: slot holds 2*length+1, data in consecutive words.
    let st1 := setWord st (.base l) (2 * length + 1)
    let chunks := length / 32 + (if length % 32 > 0 then 1 else 0)
    (List.range chunks).foldl
      (fun acc i =>
        let chunk := (data.drop (32 * i)).take 32
        setWord acc (.dataWord l i) (bytesToNat (chunk ++ List.replicate (32 - chunk.length) 0)))
      st1

/-! ### Derived state predicates -/

/-- Sum of the staked field over the node array. -/
def stakeSum (l : List NodeInfo) : Int := (l.map (fun n => n.staked)).sum

/-- Sum of value over the rows that are still delegated
(undelegatedAt = 0). -/
def liveSum (l : List DelegatorInfo) : Int :=
  (l.map (fun d => if d.undelegatedAt = 0 then d.value else 0)).sum

/-- Stake conservation: totalStaked is the sum of node stakes, and each
node's staked equals the sum of value over its live delegator rows. -/
def conserved (st : GovState) : Prop :=
  st.totalStaked = stakeSum st.nodes ∧
  ∀ i, i < st.nodes.length →
    (nodeAt st i).staked = liveSum (delegsOf st (nodeAt st i).owner)

instance (st : GovState) : Decidable (conserved st) :=
  inferInstanceAs (Decidable (st.totalStaked = stakeSum st.nodes ∧
    ∀ i, i < st.nodes.length →
      (nodeAt st i).staked = liveSum (delegsOf st (nodeAt st i).owner)))

/-- A fresh governance contract: no nodes, no delegations, empty DKG
state, a configured lockup period. -/
def emptyRegistry (lockup : Nat) : GovState :=
  { nodes := [], offsByAddr := [], offsByNodeKey := [], delegators := [],
    delOff := [], totalStaked := 0, balances := [], lockupPeriod := lockup,
    dkgRound := 0, dkgMPKs := [], dkgComplaints := [], mpkReadyFlags := [],
    readysCount := 0, finalizedFlags := [], finalizedsCount := 0,
    dkgSetSize := 0, fineValues := [], finedRecords := [] }

/-! ### Claim C9: byte-string storage round-trip -/

/-- Claim C9 evidence: the round-trip fails.  The short-form read path
recovers the bytes from big.Int.Bytes() of the raw slot value, which
strips leading zero bytes, so writing the one-byte string 0x00 reads
back as 0x02 (the shifted length marker byte). -/
theorem readBytes_writeBytes_leading_zero_broken :
    readBytes (writeBytes [] 7 [0]) 7 = [2] ∧
    readBytes (writeBytes [] 7 [0]) 7 ≠ [0] := by decide

/-! ### Claim C10: stake penalizes on an undecodable public key -/

/-- Claim C10: a stake call whose text fields are within bounds, from a
caller with no existing node, whose publicKey does not decode
(publicKeyToNodeKeyAddress fails inside PutNodeOffsets), is penalized and
commits nothing: the returned state is the input state, so no node record
or reverse-index entry for the caller is ever committed. -/
theorem stake_penalized_on_bad_publicKey
    (pubKeyAddr : List Nat → Option Nat) (st : GovState) (caller : Nat)
    (value : Int) (publicKey name email location url : List Nat)
    (hname : name.length < 32) (hemail : email.length < 32)
    (hloc : location.length < 32) (hurl : url.length < 128)
    (hnew : rawOffsByAddr st caller = 0)
    (hbad : pubKeyAddr publicKey = none) :
    stake pubKeyAddr st caller value publicKey name email location url =
      (.penalized, st) := by
  unfold stake
  rw [if_neg, if_neg, hbad]
  · simp [hnew]
  · omega

/-- Witness for the C10 theorem at a concrete input. -/
theorem stake_penalized_on_bad_publicKey_witness :
    ([5] : List Nat).length < 32 ∧
    rawOffsByAddr (emptyRegistry 10) 42 = 0 ∧
    stake (fun _ => none) (emptyRegistry 10) 42 9 [5] [1] [2] [3] [4] =
      (.penalized, emptyRegistry 10) :=
  ⟨by decide, by decide,
    stake_penalized_on_bad_publicKey (fun _ => none) (emptyRegistry 10) 42 9
      [5] [1] [2] [3] [4] (by decide) (by decide) (by decide) (by decide)
      (by decide) rfl⟩

/-! ### Claim C1: reverse-index integrity across node removal -/

/-- Concrete publicKeyToNodeKeyAddress for the C1 trace: the key 04 01
decodes to node-key address 100, everything else fails to decode. -/
def pkC1 : List Nat → Option Nat := fun p => if p = [4, 1] then some 100 else none

/-- Start state for the C1 trace: fresh contract, lockupPeriod 5, the
contract address holding 7 units of fund. -/
def stC1start : GovState :=
  { emptyRegistry 5 with balances := [(govContractAddr, 7)] }

/-- State after address 10 stakes 7 with public key 04 01. -/
def stC1a : GovState := (stake pkC1 stC1start 10 7 [4, 1] [] [] [] []).2

/-- State after address 10 undelegates its self-delegation at time 3. -/
def stC1b : GovState := (undelegate stC1a 10 10 3).2

/-- Claim C1 evidence: after the last delegator withdraws and the node is
removed, the owner-address reverse index is deleted but the node-key
reverse index still stores offset 0 + 1 for the removed node's node-key
address 100 - withdraw never calls DeleteNodesOffsetByNodeKeyAddress, so
the entry dangles instead of resolving to absent. -/
theorem withdraw_leaves_nodeKey_index_dangling :
    (withdraw pkC1 stC1b 10 10 9).1 = .success ∧
    (withdraw pkC1 stC1b 10 10 9).2.nodes.length = 0 ∧
    rawOffsByAddr (withdraw pkC1 stC1b 10 10 9).2 10 = 0 ∧
    rawOffsByNodeKey (withdraw pkC1 stC1b 10 10 9).2 100 = 1 := by decide

/-! ### Claims C2, C3, C4: the DKG state machine -/

theorem clearFlags_cons (flags : List (Nat × Bool)) (x : Nat) (s : List Nat) :
    clearFlags flags (x :: s) = clearFlags (mset flags x false) s := rfl

theorem mlookup_clearFlags_not_mem (flags : List (Nat × Bool))
    (dkgSet : List Nat) (a : Nat) (ha : a ∉ dkgSet) :
    mlookup false (clearFlags flags dkgSet) a = mlookup false flags a := by
  induction dkgSet generalizing flags with
  | nil => rfl
  | cons x s ih =>
    have hax : a ≠ x := fun h => ha (h ▸ List.mem_cons_self x s)
    have has : a ∉ s := fun h => ha (List.mem_cons_of_mem x h)
    rw [clearFlags_cons, ih (mset flags x false) has, mlookup_mset, if_neg hax]

theorem mlookup_clearFlags_mem (flags : List (Nat × Bool))
    (dkgSet : List Nat) (a : Nat) (ha : a ∈ dkgSet) :
    mlookup false (clearFlags flags dkgSet) a = false := by
  induction dkgSet generalizing flags with
  | nil => cases ha
  | cons x s ih =>
    rw [clearFlags_cons]
    by_cases has : a ∈ s
    · exact ih (mset flags x false) has
    · have hax : a = x := by
        rcases List.mem_cons.mp ha with h | h
        · exact h
        · exact absurd h has
      rw [mlookup_clearFlags_not_mem (mset flags x false) s a has,
        mlookup_mset, if_pos hax]

/-- Claim C3, amended part: on the first MPK submission for a new round
(dkgRound still equals evm.Round), the prologue of addDKGMasterPublicKey
empties the master-public-key and complaint arrays, zeroes both counters,
clears the mpkReady and finalized flags of every member of the current
round's DKG set, and advances dkgRound to the new round. -/
theorem dkgPrepare_clears_round_state (round evmRound : Nat)
    (dkgSet : List Nat) (st : GovState) (h : st.dkgRound = evmRound) :
    (dkgPrepare round evmRound dkgSet st).dkgMPKs = [] ∧
    (dkgPrepare round evmRound dkgSet st).dkgComplaints = [] ∧
    (dkgPrepare round evmRound dkgSet st).readysCount = 0 ∧
    (dkgPrepare round evmRound dkgSet st).finalizedsCount = 0 ∧
    (dkgPrepare round evmRound dkgSet st).dkgRound = round ∧
    (∀ a ∈ dkgSet,
      mlookup false (dkgPrepare round evmRound dkgSet st).mpkReadyFlags a = false ∧
      mlookup false (dkgPrepare round evmRound dkgSet st).finalizedFlags a = false) := by
  have hpre : dkgPrepare round evmRound dkgSet st =
      { clearDKG dkgSet st with dkgRound := round } := by
    unfold dkgPrepare
    rw [if_pos h]
  rw [hpre]
  exact ⟨rfl, rfl, rfl, rfl, rfl, fun a ha =>
    ⟨mlookup_clearFlags_mem st.mpkReadyFlags dkgSet a ha,
     mlookup_clearFlags_mem st.finalizedFlags dkgSet a ha⟩⟩

/-- Concrete input for the C3 witness: stale DKG state of round 2. -/
def stC3w : GovState :=
  { emptyRegistry 0 with
    dkgRound := 2
    readysCount := 4
    mpkReadyFlags := [(9, true)] }

/-- Witness for the C3 amended theorem at a concrete input. -/
theorem dkgPrepare_clears_round_state_witness :
    stC3w.dkgRound = 2 ∧ (dkgPrepare 3 2 [9] stC3w).readysCount = 0 :=
  ⟨rfl, (dkgPrepare_clears_round_state 3 2 [9] stC3w rfl).2.2.1⟩

/-- A state in which address 5 holds an mpkReady flag although it is not
a member of the current round's DKG set. -/
def stC3 : GovState :=
  { emptyRegistry 0 with
    dkgRound := 2
    readysCount := 1
    mpkReadyFlags := [(5, true)] }

/-- Claim C3 counterexample: the clearing prologue runs (dkgRound equals
the current round 2) with DKG set containing only address 9, yet address
5's mpkReady flag survives - clearDKG only rewrites flags of current
DKG-set members, not of every address as the claim states. -/
theorem dkgPrepare_misses_flag_outside_set :
    stC3.dkgRound = 2 ∧
    mlookup false (dkgPrepare 3 2 [9] stC3).mpkReadyFlags 5 = true := by decide

/-- A state with dkgSetSize 4 in which the finalized count 3 exceeds the
gate threshold 2*(4/3) = 2, the readys count is 0, dkgRound already
advanced to 3, and node-key address 20 is staked. -/
def stC4 : GovState :=
  { emptyRegistry 0 with
    dkgSetSize := 4
    finalizedsCount := 3
    readysCount := 0
    dkgRound := 3
    offsByNodeKey := [(20, 1)] }

/-- Claim C4 counterexample: with the finalized count already past the
byzantine threshold, an addDKGMasterPublicKey call for round 3 (current
round 2) from a staked, not-yet-ready caller with a well-formed payload
succeeds - the finalize count does not gate MPK submission at all (the
gate reads dkgReadysCount, and is a soft reject when it fires). -/
theorem addDKGMasterPublicKey_ignores_finalized_count :
    stC4.finalizedsCount > dkgGateThreshold stC4 ∧
    (addDKGMasterPublicKey stC4 20 3 2 [1] [] true true true).1 = .success := by
  decide

/-- Claim C4, amended part: what actually gates MPK submission is the
mpkReady count: once dkgReadysCount exceeds 2*(dkgSetSize/3), a staked,
not-yet-ready caller's addDKGMasterPublicKey for round evmRound+1 is
rejected with a soft revert (not penalized), leaving the state
unchanged.  The hypothesis on dkgRound keeps the call off the
new-round clearing prologue. -/
theorem addDKGMasterPublicKey_gated_by_readysCount
    (st : GovState) (caller round evmRound : Nat) (mpk : List Nat)
    (dkgSet : List Nat) (p1 p2 p3 : Bool)
    (hr : round = evmRound + 1) (hd : st.dkgRound ≠ evmRound)
    (hstaked : rawOffsByNodeKey st caller ≠ 0)
    (hready : mlookup false st.mpkReadyFlags caller = false)
    (hgate : st.readysCount > dkgGateThreshold st) :
    addDKGMasterPublicKey st caller round evmRound mpk dkgSet p1 p2 p3 =
      (.rejected, st) := by
  unfold addDKGMasterPublicKey dkgPrepare
  rw [if_neg (by omega : ¬ round ≠ evmRound + 1), if_neg hd]
  simp [hstaked, hready, hgate]

/-- Concrete input for the C4 witness: the C4 state with the readys
count pushed past the gate. -/
def stC4r : GovState := { stC4 with readysCount := 3 }

/-- Witness for the C4 amended theorem at a concrete input. -/
theorem addDKGMasterPublicKey_gated_by_readysCount_witness :
    stC4r.readysCount > dkgGateThreshold stC4r ∧
    addDKGMasterPublicKey stC4r 20 3 2 [1] [] true true true =
      (.rejected, stC4r) :=
  ⟨by decide,
    addDKGMasterPublicKey_gated_by_readysCount stC4r 20 3 2 [1] [] true true
      true rfl (by decide) (by decide) (by decide) (by decide)⟩

/-- A state with dkgSetSize 5 and finalized count 3: the source's gate
threshold is 2*(5/3) = 2, while the claim's formula floor(2*5/3) is 3. -/
def stC2 : GovState :=
  { emptyRegistry 0 with
    dkgSetSize := 5
    finalizedsCount := 3
    offsByNodeKey := [(20, 1)] }

/-- Claim C2 counterexample: at dkgSetSize 5 with finalized count 3, a
staked, not-finalized caller's addDKGComplaint for round 3 (current round
2) with a well-formed payload is rejected, although the count does not
exceed the claim's threshold floor(2*N/3) = 3: the source computes
2*floor(N/3), which differs from floor(2*N/3) at N = 5. -/
theorem addDKGComplaint_threshold_formula_differs :
    (addDKGComplaint stC2 20 3 2 [1] true true true true true false false 99).1
      = .rejected ∧
    ¬ (stC2.finalizedsCount > 2 * stC2.dkgSetSize / 3) := by decide

/-- Claim C2, amended part: for a staked caller not yet finalized and a
round argument equal to evm.Round+1, the finalize-count gate of
addDKGComplaint fires exactly when dkgFinalizedsCount exceeds
2*(dkgSetSize/3): above that the call is rejected unchanged, at or below
it a call whose payload decodes, whose proposer is in the DKG set, whose
signatures verify and which fines nobody succeeds.  At dkgSetSize 4 both
this and the claim's floor(2*N/3) evaluate to 2. -/
theorem addDKGComplaint_gated_by_finalizedsCount
    (st : GovState) (caller round evmRound accusedAddr : Nat)
    (comp : List Nat)
    (hr : round = evmRound + 1)
    (hstaked : rawOffsByNodeKey st caller ≠ 0)
    (hfin : mlookup false st.finalizedFlags caller = false) :
    (st.finalizedsCount > dkgGateThreshold st →
      addDKGComplaint st caller round evmRound comp
        true true true true true false false accusedAddr = (.rejected, st)) ∧
    (st.finalizedsCount ≤ dkgGateThreshold st →
      (addDKGComplaint st caller round evmRound comp
        true true true true true false false accusedAddr).1 = .success) := by
  constructor
  · intro hgate
    unfold addDKGComplaint
    rw [if_neg (by omega : ¬ round ≠ evmRound + 1)]
    simp [hstaked, hfin, hgate]
  · intro hgate
    have hng : ¬ st.finalizedsCount > dkgGateThreshold st := by omega
    unfold addDKGComplaint
    rw [if_neg (by omega : ¬ round ≠ evmRound + 1)]
    simp [hstaked, hfin, hng]

/-- The C2 scenario state: dkgSetSize 4, staked node-key address 20,
before any finalize votes. -/
def stC2w : GovState :=
  { emptyRegistry 0 with
    dkgSetSize := 4
    offsByNodeKey := [(20, 1)] }

/-- The C2 scenario after three distinct addresses 11, 12, 13 called
addDKGFinalize for round 3 (current round 2) with valid payloads. -/
def stC2w3 : GovState :=
  (addDKGFinalize
    (addDKGFinalize
      (addDKGFinalize stC2w 11 3 2 true true true).2
      12 3 2 true true true).2
    13 3 2 true true true).2

/-- Witness for the C2 amended theorem: with dkgSetSize 4 the threshold
is 2, after 3 distinct addDKGFinalize calls the finalized count is 3, and
a 4th address's addDKGComplaint for the same round is rejected. -/
theorem addDKGComplaint_gated_by_finalizedsCount_witness :
    stC2w3.finalizedsCount = 3 ∧ dkgGateThreshold stC2w3 = 2 ∧
    addDKGComplaint stC2w3 20 3 2 [7] true true true true true false false 99
      = (.rejected, stC2w3) :=
  ⟨by decide, by decide,
    (addDKGComplaint_gated_by_finalizedsCount stC2w3 20 3 2 99 [7] rfl
      (by decide) (by decide)).1 (by decide)⟩

/-! ### List access helper lemmas -/

theorem getD_set_self {α : Type} (l : List α) (i : Nat) (x d : α)
    (h : i < l.length) : (l.set i x).getD i d = x := by
  rw [List.getD_eq_getElem?_getD, List.getElem?_set_self (by simpa using h)]
  rfl

theorem getD_set_ne {α : Type} (l : List α) (i j : Nat) (x d : α)
    (h : i ≠ j) : (l.set i x).getD j d = l.getD j d := by
  rw [List.getD_eq_getElem?_getD, List.getElem?_set_ne h,
    ← List.getD_eq_getElem?_getD]

theorem getD_append_left {α : Type} (l l' : List α) (i : Nat) (d : α)
    (h : i < l.length) : (l ++ l').getD i d = l.getD i d := by
  rw [List.getD_eq_getElem?_getD, List.getElem?_append_left h,
    ← List.getD_eq_getElem?_getD]

theorem getD_append_len {α : Type} (l : List α) (x d : α) :
    (l ++ [x]).getD l.length d = x := by
  rw [List.getD_eq_getElem?_getD, List.getElem?_append_right (le_refl _)]
  simp

theorem getD_dropLast {α : Type} (l : List α) (i : Nat) (d : α)
    (h : i < l.length - 1) : l.dropLast.getD i d = l.getD i d := by
  rw [List.getD_eq_getElem?_getD,
    List.getElem?_eq_getElem (by simpa using h), List.getElem_dropLast,
    ← List.getElem?_eq_getElem, ← List.getD_eq_getElem?_getD]

theorem sum_map_set {α : Type} (f : α → Int) (l : List α) (i : Nat) (x d : α)
    (h : i < l.length) :
    ((l.set i x).map f).sum = (l.map f).sum - f (l.getD i d) + f x := by
  induction l generalizing i with
  | nil => simp at h
  | cons y ys ih =>
    cases i with
    | zero => simp [List.set]; ring
    | succ j =>
      have hj : j < ys.length := by simpa using h
      simp only [List.set, List.map_cons, List.sum_cons, ih j hj]
      have : (y :: ys).getD (j + 1) d = ys.getD j d := rfl
      rw [this]; ring

theorem sum_map_append_single {α : Type} (f : α → Int) (l : List α) (x : α) :
    ((l ++ [x]).map f).sum = (l.map f).sum + f x := by simp

theorem sum_map_dropLast {α : Type} (f : α → Int) (l : List α) (d : α)
    (h : l ≠ []) :
    (l.dropLast.map f).sum = (l.map f).sum - f (l.getD (l.length - 1) d) := by
  have hlen : 0 < l.length := List.length_pos.mpr h
  have hget : l.getD (l.length - 1) d = l.getLast h := by
    rw [List.getD_eq_getElem?_getD,
      List.getElem?_eq_getElem (by omega), List.getLast_eq_getElem]
    rfl
  have hsum : (l.map f).sum = (l.dropLast.map f).sum + f (l.getLast h) := by
    conv_lhs => rw [← List.dropLast_append_getLast h]
    simp
  rw [hget, hsum]; ring

/-! ### Claim C8: order-independent fine evidence canonicalization -/

theorem lexLe_total (a b : List Nat) : lexLe a b = true ∨ lexLe b a = true := by
  induction a generalizing b with
  | nil => left; rfl
  | cons x xs ih =>
    cases b with
    | nil => right; rfl
    | cons y ys =>
      by_cases h1 : x < y
      · left; simp [lexLe, h1]
      · by_cases h2 : y < x
        · right; simp [lexLe, h2]
        · have hxy : x = y := by omega
          subst hxy
          rcases ih ys with h | h
          · left; simpa [lexLe] using h
          · right; simpa [lexLe] using h

theorem lexLe_antisymm (a b : List Nat) (h1 : lexLe a b = true)
    (h2 : lexLe b a = true) : a = b := by
  induction a generalizing b with
  | nil =>
    cases b with
    | nil => rfl
    | cons y ys => simp [lexLe] at h2
  | cons x xs ih =>
    cases b with
    | nil => simp [lexLe] at h1
    | cons y ys =>
      by_cases hxy : x < y
      · have hyx : ¬ y < x := by omega
        simp [lexLe, hxy, hyx] at h2
      · by_cases hyx : y < x
        · simp [lexLe, hxy, hyx] at h1
        · have hxy2 : x = y := by omega
          subst hxy2
          simp only [lexLe, lt_irrefl, if_false] at h1 h2
          rw [ih ys h1 h2]

theorem insertSorted_single (x y : List Nat) :
    insertSorted x [y] = if lexLe x y then [x, y] else [y, x] := by
  simp only [insertSorted]

/-- sort.Sort is order-independent on a two-element payload list. -/
theorem sortPayloads_pair (a b : List Nat) :
    sortPayloads [a, b] = sortPayloads [b, a] := by
  show insertSorted a (insertSorted b []) = insertSorted b (insertSorted a [])
  rw [show insertSorted b [] = [b] from rfl, show insertSorted a [] = [a] from rfl,
    insertSorted_single, insertSorted_single]
  by_cases h1 : lexLe a b = true
  · by_cases h2 : lexLe b a = true
    · rw [if_pos h1, if_pos h2, lexLe_antisymm a b h1 h2]
    · rw [if_pos h1, if_neg h2]
  · by_cases h2 : lexLe b a = true
    · rw [if_neg h1, if_pos h2]
    · rcases lexLe_total a b with h | h
      · exact absurd h h1
      · exact absurd h h2

/-- The fine() dedup key does not depend on the order of a two-element
evidence pair. -/
theorem fineKey_pair (a b : List Nat) : fineKey [a, b] = fineKey [b, a] := by
  unfold fineKey
  rw [sortPayloads_pair]

/-- Claim C8, amended part: report(ForkVote, a, b) over fresh conflicting
evidence by proposer p succeeds and increases the reported node's fined
field once by the ForkVote fine value; the immediately following
report(ForkVote, b, a) over the same evidence is stopped by the sorted
dedup hash and fails with errExecutionReverted (a soft revert carrying
the internal already-fined error), leaving the state unchanged. -/
theorem report_forkVote_fines_once
    (dv : List Nat → Option ForkArtifact)
    (npv : ForkArtifact → ForkArtifact → Bool)
    (db : List Nat → Option ForkArtifact)
    (npb : ForkArtifact → ForkArtifact → Bool)
    (st : GovState) (a b : List Nat) (p k m : Nat)
    (hda : dv a = some ⟨p⟩) (hdb : dv b = some ⟨p⟩)
    (hnp : npv ⟨p⟩ ⟨p⟩ = true)
    (hkey : fineKey [a, b] ∉ st.finedRecords)
    (hoffk : rawOffsByNodeKey st p = k + 1)
    (howner : rawOffsByAddr st (nodeAt st k).owner = m + 1)
    (hm : m < st.nodes.length) :
    (report dv npv db npb st 1 a b).1 = .success ∧
    (report dv npv db npb st 1 a b).2.finedRecords =
      fineKey [a, b] :: st.finedRecords ∧
    nodeAt (report dv npv db npb st 1 a b).2 m =
      { nodeAt st m with
        fined := (nodeAt st m).fined + st.fineValues.getD 1 0 } ∧
    report dv npv db npb (report dv npv db npb st 1 a b).2 1 b a =
      (.rejected, (report dv npv db npb st 1 a b).2) := by
  have hfine1 : fine st (nodeAt st k).owner (st.fineValues.getD 1 0) [a, b] =
      (.ok,
        { st with
          finedRecords := fineKey [a, b] :: st.finedRecords
          nodes := st.nodes.set m
            { nodeAt st m with
              fined := (nodeAt st m).fined + st.fineValues.getD 1 0 } }) := by
    simp only [fine]
    rw [if_neg hkey]
    have hro : rawOffsByAddr
        { st with finedRecords := fineKey [a, b] :: st.finedRecords }
        (nodeAt st k).owner = m + 1 := howner
    rw [hro, if_neg (Nat.succ_ne_zero m)]
    simp only [Nat.add_sub_cancel, updateNode]
    rfl
  have happ : reportApplyFine st 1 a b p =
      (.success,
        { st with
          finedRecords := fineKey [a, b] :: st.finedRecords
          nodes := st.nodes.set m
            { nodeAt st m with
              fined := (nodeAt st m).fined + st.fineValues.getD 1 0 } }) := by
    simp only [reportApplyFine]
    rw [hoffk, if_neg (Nat.succ_ne_zero k), Nat.add_sub_cancel, hfine1]
  have hrep : report dv npv db npb st 1 a b =
      (.success,
        { st with
          finedRecords := fineKey [a, b] :: st.finedRecords
          nodes := st.nodes.set m
            { nodeAt st m with
              fined := (nodeAt st m).fined + st.fineValues.getD 1 0 } }) := by
    unfold report
    rw [if_pos rfl, hda, hdb]
    simp only [hnp, Bool.not_true]
    rw [if_neg (by simp)]
    exact happ
  rw [hrep]
  refine ⟨rfl, rfl, getD_set_self st.nodes m _ zeroNode hm, ?_⟩
  have hfine2 : fine
      { st with
        finedRecords := fineKey [a, b] :: st.finedRecords
        nodes := st.nodes.set m
          { nodeAt st m with
            fined := (nodeAt st m).fined + st.fineValues.getD 1 0 } }
      (nodeAt
        { st with
          finedRecords := fineKey [a, b] :: st.finedRecords
          nodes := st.nodes.set m
            { nodeAt st m with
              fined := (nodeAt st m).fined + st.fineValues.getD 1 0 } } k).owner
      (st.fineValues.getD 1 0) [b, a] =
      (.alreadyFined,
        { st with
          finedRecords := fineKey [a, b] :: st.finedRecords
          nodes := st.nodes.set m
            { nodeAt st m with
              fined := (nodeAt st m).fined + st.fineValues.getD 1 0 } }) := by
    simp only [fine]
    rw [if_pos (show fineKey [b, a] ∈ fineKey [a, b] :: st.finedRecords by
      rw [← fineKey_pair a b]; exact List.mem_cons_self _ _)]
  unfold report
  rw [if_pos rfl, hdb, hda]
  simp only [hnp, Bool.not_true]
  rw [if_neg (by simp)]
  simp only [reportApplyFine]
  have hoffk2 : rawOffsByNodeKey
      { st with
        finedRecords := fineKey [a, b] :: st.finedRecords
        nodes := st.nodes.set m
          { nodeAt st m with
            fined := (nodeAt st m).fined + st.fineValues.getD 1 0 } }
      p = k + 1 := hoffk
  rw [hoffk2, if_neg (Nat.succ_ne_zero k), Nat.add_sub_cancel]
  rw [hfine2]

/-- Concrete ForkVote decoder for the C8 scenario: the payloads 01 and 02
both decode to votes by the proposer with node-key address 100. -/
def dvC8 : List Nat → Option ForkArtifact :=
  fun p => if p = [1] ∨ p = [2] then some ⟨100⟩ else none

/-- Concrete fork predicate: the two decoded votes do conflict. -/
def npC8 : ForkArtifact → ForkArtifact → Bool := fun _ _ => true

/-- Concrete block decoder (unused by the ForkVote path). -/
def dbC8 : List Nat → Option ForkArtifact := fun _ => none

/-- C8 scenario state: one node owned by address 10 with node-key address
100, ForkVote fine value 50, no fine records yet. -/
def stC8 : GovState :=
  { emptyRegistry 0 with
    nodes := [{ owner := 10, publicKey := [4, 1], staked := 0, fined := 0,
                name := [], email := [], location := [], url := [] }]
    offsByAddr := [(10, 1)]
    offsByNodeKey := [(100, 1)]
    fineValues := [0, 50] }

/-- State after the first report(ForkVote, 01, 02) call. -/
def stC8b : GovState := (report dvC8 npC8 dbC8 npC8 stC8 1 [1] [2]).2

/-- Claim C8 counterexample: over the same two conflicting votes, the
first report succeeds and fines the node once (fined becomes 50), but the
second, argument-swapped report fails with errExecutionReverted - i.e. a
soft revert, not a distinguishable already-fined error as the claim
states (fine's internal already-fined error is converted by report into
the soft revert). -/
theorem report_forkVote_second_call_soft_reverts :
    (report dvC8 npC8 dbC8 npC8 stC8 1 [1] [2]).1 = .success ∧
    (nodeAt stC8b 0).fined = 50 ∧
    report dvC8 npC8 dbC8 npC8 stC8b 1 [2] [1] = (.rejected, stC8b) := by
  decide

/-- Witness for the C8 amended theorem at a concrete input. -/
theorem report_forkVote_fines_once_witness :
    fineKey [[1], [2]] ∉ stC8.finedRecords ∧
    (report dvC8 npC8 dbC8 npC8 stC8 1 [1] [2]).1 = .success ∧
    report dvC8 npC8 dbC8 npC8 (report dvC8 npC8 dbC8 npC8 stC8 1 [1] [2]).2
        1 [2] [1] =
      (.rejected, (report dvC8 npC8 dbC8 npC8 stC8 1 [1] [2]).2) :=
  ⟨by decide,
    (report_forkVote_fines_once dvC8 npC8 dbC8 npC8 stC8 [1] [2] 100 0 0
      (by decide) (by decide) rfl (by decide) rfl rfl (by decide)).1,
    (report_forkVote_fines_once dvC8 npC8 dbC8 npC8 stC8 [1] [2] 100 0 0
      (by decide) (by decide) rfl (by decide) rfl rfl (by decide)).2.2.2⟩

/-! ### Claim C7: lockup enforcement in withdraw -/

theorem removeDelegator_untouched_fields (st : GovState) (n c off : Nat) :
    (removeDelegator st n c off).balances = st.balances ∧
    (removeDelegator st n c off).nodes = st.nodes ∧
    (removeDelegator st n c off).offsByAddr = st.offsByAddr ∧
    (removeDelegator st n c off).lockupPeriod = st.lockupPeriod := by
  simp only [removeDelegator]
  split <;> exact ⟨rfl, rfl, rfl, rfl⟩

theorem removeDelegator_delOff_caller (st : GovState) (n c off : Nat) :
    rawDelOff (removeDelegator st n c off) n c = 0 := by
  simp only [removeDelegator]
  split <;> simp [rawDelOff, setDelegs, mset, mlookup]

theorem removeDelegator_len (st : GovState) (n c off : Nat) :
    (delegsOf (removeDelegator st n c off) n).length =
      (delegsOf st n).length - 1 := by
  simp only [removeDelegator]
  split <;> simp [delegsOf, setDelegs, mset, mlookup]

theorem balanceOf_doTransfer_dst (st : GovState) (src dst : Nat) (v : Int)
    (h : dst ≠ src) :
    balanceOf (doTransfer st src dst v) dst = balanceOf st dst + v := by
  simp [doTransfer, balanceOf, mset, mlookup, h]

theorem removeNode_isSome (pubKeyAddr : List Nat → Option Nat) (st : GovState)
    (n off : Nat)
    (h : off = st.nodes.length - 1 ∨
      (pubKeyAddr (nodeAt st (st.nodes.length - 1)).publicKey).isSome) :
    (removeNode pubKeyAddr st n off).isSome := by
  simp only [removeNode]
  by_cases hoff : off = st.nodes.length - 1
  · rw [if_neg (by omega : ¬ off ≠ st.nodes.length - 1)]
    rfl
  · rw [if_pos hoff]
    rcases h with h | h
    · exact absurd h hoff
    · rcases Option.isSome_iff_exists.mp h with ⟨nk, hnk⟩
      rw [hnk]
      rfl

theorem removeNode_untouched_fields (pubKeyAddr : List Nat → Option Nat)
    (st : GovState) (n off : Nat) (st' : GovState)
    (h : removeNode pubKeyAddr st n off = some st') :
    st'.delOff = st.delOff ∧ st'.delegators = st.delegators ∧
    st'.balances = st.balances := by
  simp only [removeNode] at h
  by_cases hoff : off ≠ st.nodes.length - 1
  · rw [if_pos hoff] at h
    cases hpk : pubKeyAddr (nodeAt st (st.nodes.length - 1)).publicKey with
    | none => rw [hpk] at h; cases h
    | some nk =>
      rw [hpk] at h
      cases h
      exact ⟨rfl, rfl, rfl⟩
  · rw [if_neg hoff] at h
    cases h
    exact ⟨rfl, rfl, rfl⟩

/-- Claim C7: with the caller's delegator row on the target node carrying
undelegatedAt = u with u not 0 and lockup period L, a withdraw at logical
time now is penalized (with no state change) whenever now is not
strictly above u + L; and when now > u + L (the fund being coverable and
the caller not the contract address itself, with the node-removal
publicKey decodable when it triggers), the call succeeds, credits exactly
the recorded value back to the delegator, deletes the row's reverse
index, and shrinks the node's delegator array by one. -/
theorem withdraw_lockup_enforced
    (pubKeyAddr : List Nat → Option Nat) (st : GovState)
    (caller nodeAddr now nodeOff dOff : Nat)
    (hnodeoff : rawOffsByAddr st nodeAddr = nodeOff + 1)
    (hdoff : rawDelOff st nodeAddr caller = dOff + 1)
    (hdlen : dOff < (delegsOf st nodeAddr).length)
    (hu : (delegatorAt st nodeAddr dOff).undelegatedAt ≠ 0) :
    (now ≤ (delegatorAt st nodeAddr dOff).undelegatedAt + st.lockupPeriod →
      withdraw pubKeyAddr st caller nodeAddr now = (.penalized, st)) ∧
    (now > (delegatorAt st nodeAddr dOff).undelegatedAt + st.lockupPeriod →
     (delegatorAt st nodeAddr dOff).value ≤ balanceOf st govContractAddr →
     (delegatorAt st nodeAddr dOff).owner ≠ govContractAddr →
     ((delegsOf st nodeAddr).length = 1 →
       st.nodes.length ≤ 1 ∨
       (pubKeyAddr (nodeAt st (st.nodes.length - 1)).publicKey).isSome) →
     ∃ st', withdraw pubKeyAddr st caller nodeAddr now = (.success, st') ∧
       rawDelOff st' nodeAddr caller = 0 ∧
       (delegsOf st' nodeAddr).length = (delegsOf st nodeAddr).length - 1 ∧
       balanceOf st' (delegatorAt st nodeAddr dOff).owner =
         balanceOf st (delegatorAt st nodeAddr dOff).owner +
           (delegatorAt st nodeAddr dOff).value) := by
  constructor
  · intro hnow
    unfold withdraw
    rw [hnodeoff, if_neg (Nat.succ_ne_zero nodeOff), hdoff,
      if_neg (Nat.succ_ne_zero dOff), Nat.add_sub_cancel, if_neg hu,
      if_pos hnow]
  · intro hnow hbal howner hnr
    have hnlt : ¬ now ≤ (delegatorAt st nodeAddr dOff).undelegatedAt +
        st.lockupPeriod := by omega
    have hrd := removeDelegator_untouched_fields st nodeAddr caller dOff
    have hct : canTransfer (removeDelegator st nodeAddr caller dOff)
        govContractAddr (delegatorAt st nodeAddr dOff).value = true := by
      unfold canTransfer
      rw [show balanceOf (removeDelegator st nodeAddr caller dOff)
          govContractAddr = balanceOf st govContractAddr from by
        unfold balanceOf; rw [hrd.1]]
      exact decide_eq_true hbal
    simp only [withdraw]
    rw [hnodeoff, if_neg (Nat.succ_ne_zero nodeOff), hdoff,
      if_neg (Nat.succ_ne_zero dOff), Nat.add_sub_cancel, if_neg hu,
      if_neg hnlt, hct]
    rw [if_neg (by simp)]
    set st4 := doTransfer (removeDelegator st nodeAddr caller dOff)
      govContractAddr (delegatorAt st nodeAddr dOff).owner
      (delegatorAt st nodeAddr dOff).value with hst4
    have hst4delegs : st4.delegators =
        (removeDelegator st nodeAddr caller dOff).delegators := rfl
    have hst4delOff : st4.delOff =
        (removeDelegator st nodeAddr caller dOff).delOff := rfl
    have hst4len : (delegsOf st4 nodeAddr).length =
        (delegsOf st nodeAddr).length - 1 := by
      have : delegsOf st4 nodeAddr =
          delegsOf (removeDelegator st nodeAddr caller dOff) nodeAddr := by
        unfold delegsOf; rw [hst4delegs]
      rw [this, removeDelegator_len]
    have hst4doff : rawDelOff st4 nodeAddr caller = 0 := by
      have : rawDelOff st4 nodeAddr caller =
          rawDelOff (removeDelegator st nodeAddr caller dOff) nodeAddr
            caller := by
        unfold rawDelOff; rw [hst4delOff]
      rw [this, removeDelegator_delOff_caller]
    have hst4bal : balanceOf st4 (delegatorAt st nodeAddr dOff).owner =
        balanceOf st (delegatorAt st nodeAddr dOff).owner +
          (delegatorAt st nodeAddr dOff).value := by
      rw [hst4, balanceOf_doTransfer_dst _ _ _ _ howner]
      unfold balanceOf
      rw [hrd.1]
    by_cases hzero : (delegsOf st4 nodeAddr).length = 0
    · rw [if_pos hzero]
      have hlen1 : (delegsOf st nodeAddr).length = 1 := by omega
      have hd0 : dOff = 0 := by omega
      have hnodes4 : st4.nodes = st.nodes := hrd.2.1
      have he : ∀ j, nodeAt st4 j = nodeAt st j := fun j => by
        unfold nodeAt; rw [hnodes4]
      have hsome := removeNode_isSome pubKeyAddr st4 nodeAddr dOff
        (by rw [hnodes4, he]
            rcases hnr hlen1 with hln | hk
            · exact Or.inl (by omega)
            · exact Or.inr hk)
      rcases Option.isSome_iff_exists.mp hsome with ⟨st9, hst9⟩
      rw [hst9]
      refine ⟨st9, rfl, ?_, ?_, ?_⟩
      · have hf := removeNode_untouched_fields pubKeyAddr st4 nodeAddr
          dOff st9 hst9
        unfold rawDelOff
        rw [hf.1]
        exact hst4doff
      · have hf := removeNode_untouched_fields pubKeyAddr st4 nodeAddr
          dOff st9 hst9
        unfold delegsOf
        rw [hf.2.1]
        exact hst4len
      · have hf := removeNode_untouched_fields pubKeyAddr st4 nodeAddr
          dOff st9 hst9
        unfold balanceOf
        rw [hf.2.2]
        exact hst4bal
    · rw [if_neg hzero]
      exact ⟨st4, rfl, hst4doff, hst4len, hst4bal⟩

/-- Concrete state for the C7 witness: one node owned by address 10 whose
single self-delegation of 7 was undelegated at time 3, lockup period
1000, the contract holding the fund. -/
def stC7 : GovState :=
  { emptyRegistry 1000 with
    nodes := [{ owner := 10, publicKey := [4, 1], staked := 0, fined := 0,
                name := [], email := [], location := [], url := [] }]
    offsByAddr := [(10, 1)]
    offsByNodeKey := [(100, 1)]
    delegators := [(10, [{ owner := 10, value := 7, undelegatedAt := 3 }])]
    delOff := [((10, 10), 1)]
    balances := [(govContractAddr, 7)] }

/-- Witness for the C7 theorem at the claim's concrete boundary times:
with lockupPeriod 1000 and undelegatedAt 3, withdraw at 3 + 999 is
penalized and withdraw at 3 + 1001 succeeds. -/
theorem withdraw_lockup_enforced_witness :
    (delegatorAt stC7 10 0).undelegatedAt ≠ 0 ∧
    withdraw pkC1 stC7 10 10 1002 = (.penalized, stC7) ∧
    (∃ st', withdraw pkC1 stC7 10 10 1004 = (.success, st') ∧
      rawDelOff st' 10 10 = 0 ∧
      (delegsOf st' 10).length = (delegsOf stC7 10).length - 1 ∧
      balanceOf st' (delegatorAt stC7 10 0).owner =
        balanceOf stC7 (delegatorAt stC7 10 0).owner +
          (delegatorAt stC7 10 0).value) :=
  ⟨by decide,
    (withdraw_lockup_enforced pkC1 stC7 10 10 1002 0 0 rfl rfl (by decide)
      (by decide)).1 (by decide),
    (withdraw_lockup_enforced pkC1 stC7 10 10 1004 0 0 rfl rfl (by decide)
      (by decide)).2 (by decide) (by decide) (by decide)
      (fun _ => Or.inl (by decide))⟩

/-! ### Claim C5: unstake's delegator loop -/

/-- Successful undelegateHelper: the row is stamped with the current
time, the node's staked and the global total drop by the row's value. -/
theorem undelegateHelper_success_state (st : GovState)
    (nodeAddr caller now : Nat) (k j : Nat)
    (hoff : rawOffsByAddr st nodeAddr = k + 1)
    (hfined : ¬ (nodeAt st k).fined > 0)
    (hdoff : rawDelOff st nodeAddr caller = j + 1)
    (hlive : (delegatorAt st nodeAddr j).undelegatedAt = 0) :
    undelegateHelper st nodeAddr caller now =
      (.success,
        { st with
          delegators := mset st.delegators nodeAddr
            ((delegsOf st nodeAddr).set j
              { delegatorAt st nodeAddr j with undelegatedAt := now })
          nodes := st.nodes.set k
            { nodeAt st k with
              staked := (nodeAt st k).staked -
                (delegatorAt st nodeAddr j).value }
          totalStaked := st.totalStaked -
            (delegatorAt st nodeAddr j).value }) := by
  simp only [undelegateHelper]
  rw [hoff, hdoff]
  simp only [Nat.add_sub_cancel]
  rw [if_neg (Nat.succ_ne_zero k), if_neg (Nat.succ_ne_zero j),
    if_neg hfined, if_neg (by simp [hlive])]
  rfl

/-- Failing undelegateHelper on an already-undelegated row. -/
theorem undelegateHelper_rejects_dead (st : GovState)
    (nodeAddr caller now : Nat) (k j : Nat)
    (hoff : rawOffsByAddr st nodeAddr = k + 1)
    (hfined : ¬ (nodeAt st k).fined > 0)
    (hdoff : rawDelOff st nodeAddr caller = j + 1)
    (hdead : (delegatorAt st nodeAddr j).undelegatedAt ≠ 0) :
    undelegateHelper st nodeAddr caller now = (.rejected, st) := by
  simp only [undelegateHelper]
  rw [hoff, hdoff]
  simp only [Nat.add_sub_cancel]
  rw [if_neg (Nat.succ_ne_zero k), if_neg (Nat.succ_ne_zero j),
    if_neg hfined, if_pos hdead]

/-- The descending unstake loop succeeds when every row below the cursor
is still delegated, stamping each of them with the current time. -/
theorem unstakeFrom_all_live (caller now k : Nat) :
    ∀ (i : Nat) (st : GovState),
    rawOffsByAddr st caller = k + 1 →
    k < st.nodes.length →
    (nodeAt st k).fined ≤ 0 →
    i ≤ (delegsOf st caller).length →
    (∀ j, j < (delegsOf st caller).length →
      rawDelOff st caller (delegatorAt st caller j).owner = j + 1) →
    (∀ j, j < i → (delegatorAt st caller j).undelegatedAt = 0) →
    ∃ stF, unstakeFrom caller now st i = some stF ∧
      (delegsOf stF caller).length = (delegsOf st caller).length ∧
      (∀ j, j < (delegsOf st caller).length →
        (delegatorAt stF caller j).undelegatedAt =
          if j < i then now else (delegatorAt st caller j).undelegatedAt) := by
  intro i
  induction i with
  | zero =>
    intro st hoff hk hfined hle hdel hlive
    exact ⟨st, rfl, rfl, fun j hj => by simp⟩
  | succ i ih =>
    intro st hoff hk hfined hle hdel hlive
    have hi : i < (delegsOf st caller).length := by omega
    have hstep := undelegateHelper_success_state st caller
      (delegatorAt st caller i).owner now k i hoff (by omega)
      (hdel i hi) (hlive i (by omega))
    have hloop : unstakeFrom caller now st (i + 1) =
        unstakeFrom caller now
          { st with
            delegators := mset st.delegators caller
              ((delegsOf st caller).set i
                { delegatorAt st caller i with undelegatedAt := now })
            nodes := st.nodes.set k
              { nodeAt st k with
                staked := (nodeAt st k).staked -
                  (delegatorAt st caller i).value }
            totalStaked := st.totalStaked -
              (delegatorAt st caller i).value } i := by
      simp only [unstakeFrom]
      rw [hstep]
    set st2 : GovState :=
      { st with
        delegators := mset st.delegators caller
          ((delegsOf st caller).set i
            { delegatorAt st caller i with undelegatedAt := now })
        nodes := st.nodes.set k
          { nodeAt st k with
            staked := (nodeAt st k).staked -
              (delegatorAt st caller i).value }
        totalStaked := st.totalStaked -
          (delegatorAt st caller i).value } with hst2
    have hdelegs2 : delegsOf st2 caller =
        (delegsOf st caller).set i
          { delegatorAt st caller i with undelegatedAt := now } := by
      simp [hst2, delegsOf, mset, mlookup]
    have hlen2 : (delegsOf st2 caller).length =
        (delegsOf st caller).length := by
      rw [hdelegs2, List.length_set]
    have hrow2 : ∀ j, j ≠ i → delegatorAt st2 caller j =
        delegatorAt st caller j := by
      intro j hj
      unfold delegatorAt
      rw [hdelegs2, getD_set_ne _ _ _ _ _ (fun h => hj h.symm)]
    have hrow2i : delegatorAt st2 caller i =
        { delegatorAt st caller i with undelegatedAt := now } := by
      unfold delegatorAt
      rw [hdelegs2, getD_set_self _ _ _ _ hi]
      rfl
    have hnode2 : nodeAt st2 k =
        { nodeAt st k with
          staked := (nodeAt st k).staked -
            (delegatorAt st caller i).value } := by
      unfold nodeAt
      show (st.nodes.set k _).getD k zeroNode = _
      rw [getD_set_self _ _ _ _ hk]
      rfl
    rcases ih st2 hoff (by simpa [hst2] using hk)
        (by rw [hnode2]; exact hfined) (by omega)
        (by intro j hj
            rw [hlen2] at hj
            by_cases hji : j = i
            · subst hji
              rw [hrow2i]
              exact hdel j hj
            · rw [hrow2 j hji]
              exact hdel j hj)
        (by intro j hj
            rw [hrow2 j (by omega)]
            exact hlive j (by omega)) with ⟨stF, hF, hFlen, hFrows⟩
    refine ⟨stF, by rw [hloop]; exact hF, by rw [hFlen, hlen2], ?_⟩
    intro j hj
    have hj2 : j < (delegsOf st2 caller).length := by omega
    have := hFrows j hj2
    by_cases hji : j = i
    · subst hji
      rw [this, if_neg (by omega), if_pos (by omega), hrow2i]
    · by_cases hjlt : j < i
      · rw [this, if_pos hjlt, if_pos (by omega)]
      · rw [this, if_neg hjlt, if_neg (by omega), hrow2 j hji]

/-- The descending unstake loop aborts (the whole call reverts) as soon
as it reaches a row that is already undelegated. -/
theorem unstakeFrom_abort (caller now k : Nat) :
    ∀ (i : Nat) (st : GovState),
    rawOffsByAddr st caller = k + 1 →
    k < st.nodes.length →
    (nodeAt st k).fined ≤ 0 →
    i ≤ (delegsOf st caller).length →
    (∀ j, j < (delegsOf st caller).length →
      rawDelOff st caller (delegatorAt st caller j).owner = j + 1) →
    (∃ j, j < i ∧ (delegatorAt st caller j).undelegatedAt ≠ 0) →
    unstakeFrom caller now st i = none := by
  intro i
  induction i with
  | zero =>
    intro st _ _ _ _ _ hdead
    rcases hdead with ⟨j, hj, _⟩
    omega
  | succ i ih =>
    intro st hoff hk hfined hle hdel hdead
    have hi : i < (delegsOf st caller).length := by omega
    by_cases hrowi : (delegatorAt st caller i).undelegatedAt = 0
    · have hstep := undelegateHelper_success_state st caller
        (delegatorAt st caller i).owner now k i hoff (by omega)
        (hdel i hi) hrowi
      have hloop : unstakeFrom caller now st (i + 1) =
          unstakeFrom caller now
            { st with
              delegators := mset st.delegators caller
                ((delegsOf st caller).set i
                  { delegatorAt st caller i with undelegatedAt := now })
              nodes := st.nodes.set k
                { nodeAt st k with
                  staked := (nodeAt st k).staked -
                    (delegatorAt st caller i).value }
              totalStaked := st.totalStaked -
                (delegatorAt st caller i).value } i := by
        simp only [unstakeFrom]
        rw [hstep]
      set st2 : GovState :=
        { st with
          delegators := mset st.delegators caller
            ((delegsOf st caller).set i
              { delegatorAt st caller i with undelegatedAt := now })
          nodes := st.nodes.set k
            { nodeAt st k with
              staked := (nodeAt st k).staked -
                (delegatorAt st caller i).value }
          totalStaked := st.totalStaked -
            (delegatorAt st caller i).value } with hst2
      have hdelegs2 : delegsOf st2 caller =
          (delegsOf st caller).set i
            { delegatorAt st caller i with undelegatedAt := now } := by
        simp [hst2, delegsOf, mset, mlookup]
      have hlen2 : (delegsOf st2 caller).length =
          (delegsOf st caller).length := by
        rw [hdelegs2, List.length_set]
      have hrow2 : ∀ j, j ≠ i → delegatorAt st2 caller j =
          delegatorAt st caller j := by
        intro j hj
        unfold delegatorAt
        rw [hdelegs2, getD_set_ne _ _ _ _ _ (fun h => hj h.symm)]
      have hrow2i : delegatorAt st2 caller i =
          { delegatorAt st caller i with undelegatedAt := now } := by
        unfold delegatorAt
        rw [hdelegs2, getD_set_self _ _ _ _ hi]
        rfl
      have hnode2 : nodeAt st2 k =
          { nodeAt st k with
            staked := (nodeAt st k).staked -
              (delegatorAt st caller i).value } := by
        unfold nodeAt
        show (st.nodes.set k _).getD k zeroNode = _
        rw [getD_set_self _ _ _ _ hk]
        rfl
      rcases hdead with ⟨j, hji, hjdead⟩
      have hjne : j ≠ i := by
        intro h
        exact hjdead (h ▸ hrowi)
      have hjlt : j < i := by omega
      rw [hloop]
      refine ih st2 hoff (by simpa [hst2] using hk)
        (by rw [hnode2]; exact hfined) (by omega)
        (by intro j' hj'
            rw [hlen2] at hj'
            by_cases hji' : j' = i
            · subst hji'
              rw [hrow2i]
              exact hdel j' hj'
            · rw [hrow2 j' hji']
              exact hdel j' hj') ⟨j, hjlt, ?_⟩
      rw [hrow2 j hjne]
      exact hjdead
    · have hstep := undelegateHelper_rejects_dead st caller
        (delegatorAt st caller i).owner now k i hoff (by omega)
        (hdel i hi) hrowi
      simp only [unstakeFrom]
      rw [hstep]

/-- Claim C5, amended part: unstake visits the caller's delegators from
the last index down to 0; an individual delegator that fails the
undelegate precondition makes the whole call fail (reverting every
write), rather than being skipped; the call succeeds exactly when every
delegator is still delegated, in which case all of them are
force-undelegated (stamped with the current time). -/
theorem unstake_all_or_nothing (st : GovState) (caller now k : Nat)
    (hoff : rawOffsByAddr st caller = k + 1)
    (hk : k < st.nodes.length)
    (hfined : (nodeAt st k).fined ≤ 0)
    (hdel : ∀ j, j < (delegsOf st caller).length →
      rawDelOff st caller (delegatorAt st caller j).owner = j + 1) :
    ((∃ j, j < (delegsOf st caller).length ∧
        (delegatorAt st caller j).undelegatedAt ≠ 0) →
      unstake st caller now = (.rejected, st)) ∧
    ((∀ j, j < (delegsOf st caller).length →
        (delegatorAt st caller j).undelegatedAt = 0) →
      ∃ stF, unstake st caller now = (.success, stF) ∧
        ∀ j, j < (delegsOf st caller).length →
          (delegatorAt stF caller j).undelegatedAt = now) := by
  constructor
  · intro hdead
    have habort := unstakeFrom_abort caller now k
      ((delegsOf st caller).length) st hoff hk hfined (le_refl _) hdel hdead
    unfold unstake
    rw [hoff, if_neg (Nat.succ_ne_zero k), Nat.add_sub_cancel,
      if_neg (by omega : ¬ (nodeAt st k).fined > 0), habort]
  · intro hlive
    rcases unstakeFrom_all_live caller now k
        ((delegsOf st caller).length) st hoff hk hfined (le_refl _) hdel
        hlive with ⟨stF, hF, hFlen, hFrows⟩
    refine ⟨stF, ?_, ?_⟩
    · unfold unstake
      rw [hoff, if_neg (Nat.succ_ne_zero k), Nat.add_sub_cancel,
        if_neg (by omega : ¬ (nodeAt st k).fined > 0), hF]
    · intro j hj
      have := hFrows j hj
      rw [this, if_pos hj]

/-- C5 counterexample state: node owned by 10 with two delegators, the
second of which (row 1) already undelegated at time 7. -/
def stC5 : GovState :=
  { emptyRegistry 0 with
    nodes := [{ owner := 10, publicKey := [4, 1], staked := 5, fined := 0,
                name := [], email := [], location := [], url := [] }]
    offsByAddr := [(10, 1)]
    offsByNodeKey := [(100, 1)]
    delegators := [(10, [{ owner := 11, value := 5, undelegatedAt := 0 },
                         { owner := 12, value := 4, undelegatedAt := 7 }])]
    delOff := [((10, 11), 1), ((10, 12), 2)]
    totalStaked := 5 }

/-- Claim C5 counterexample: with one delegator (row 1) already
undelegated, the whole unstake call fails with errExecutionReverted and
changes nothing - in particular the still-delegated row 0 is NOT
force-undelegated, contradicting the claim that failing delegators are
skipped and the call still succeeds. -/
theorem unstake_aborts_on_failed_precondition :
    unstake stC5 10 9 = (.rejected, stC5) ∧
    (delegatorAt stC5 10 0).undelegatedAt = 0 := by decide

/-- C5 witness state: the same node with both delegators still
delegated. -/
def stC5b : GovState :=
  { stC5 with
    delegators := [(10, [{ owner := 11, value := 5, undelegatedAt := 0 },
                         { owner := 12, value := 4, undelegatedAt := 0 }])] }

/-- Witness for the C5 amended theorem at a concrete input. -/
theorem unstake_all_or_nothing_witness :
    (∃ j, j < (delegsOf stC5 10).length ∧
      (delegatorAt stC5 10 j).undelegatedAt ≠ 0) ∧
    unstake stC5 10 9 = (.rejected, stC5) ∧
    (∃ stF, unstake stC5b 10 9 = (.success, stF) ∧
      ∀ j, j < (delegsOf stC5b 10).length →
        (delegatorAt stF 10 j).undelegatedAt = 9) :=
  ⟨⟨1, by decide, by decide⟩,
    (unstake_all_or_nothing stC5 10 9 0 rfl (by decide) (by decide)
      (by decide)).1 ⟨1, by decide, by decide⟩,
    (unstake_all_or_nothing stC5b 10 9 0 rfl (by decide) (by decide)
      (by decide)).2 (by decide)⟩

/-! ### Claim C6: stake conservation

The intended invariant (reverse-index soundness plus the two sum
equations) is preserved by delegate, stake and undelegateHelper, and by
the delegator swap-delete and the node swap-delete WHEN the latter is
applied at the node's true array offset.  The withdraw handler, however,
reuses the caller's delegator offset (always 0 at that point) as the
node-array slot, so a withdraw that removes a node stored at offset
> 0 clobbers slot 0 and breaks conservation; the claim is refuted by a
concrete reachable trace below. -/

/-- The inductive invariant: owner-address index soundness and
completeness, per-node delegator index soundness and completeness,
delegator lists of node-less addresses are empty, and the two
conservation equations. -/
structure Inv (st : GovState) : Prop where
  addrSound : ∀ a j, rawOffsByAddr st a = j + 1 →
    j < st.nodes.length ∧ (nodeAt st j).owner = a
  addrComplete : ∀ i, i < st.nodes.length →
    rawOffsByAddr st (nodeAt st i).owner = i + 1
  delSound : ∀ n d j, rawDelOff st n d = j + 1 →
    j < (delegsOf st n).length ∧ (delegatorAt st n j).owner = d
  delComplete : ∀ n j, j < (delegsOf st n).length →
    rawDelOff st n (delegatorAt st n j).owner = j + 1
  emptyDelegs : ∀ a, rawOffsByAddr st a = 0 → delegsOf st a = []
  total : st.totalStaked = stakeSum st.nodes
  perNode : ∀ i, i < st.nodes.length →
    (nodeAt st i).staked = liveSum (delegsOf st (nodeAt st i).owner)

/-- Node owners are pairwise distinct under the invariant. -/
theorem Inv.ownerInj {st : GovState} (h : Inv st) (i i' : Nat)
    (hi : i < st.nodes.length) (hi' : i' < st.nodes.length)
    (ho : (nodeAt st i).owner = (nodeAt st i').owner) : i = i' := by
  have h1 := h.addrComplete i hi
  have h2 := h.addrComplete i' hi'
  rw [ho] at h1
  omega

theorem liveSum_append_single (l : List DelegatorInfo) (d : DelegatorInfo) :
    liveSum (l ++ [d]) =
      liveSum l + (if d.undelegatedAt = 0 then d.value else 0) := by
  unfold liveSum
  exact sum_map_append_single _ l d

theorem stakeSum_set (l : List NodeInfo) (i : Nat) (n : NodeInfo)
    (h : i < l.length) :
    stakeSum (l.set i n) = stakeSum l - (l.getD i zeroNode).staked + n.staked := by
  unfold stakeSum
  exact sum_map_set _ l i n zeroNode h

theorem liveSum_set (l : List DelegatorInfo) (i : Nat) (d : DelegatorInfo)
    (h : i < l.length) :
    liveSum (l.set i d) = liveSum l -
      (if (l.getD i zeroDelegator).undelegatedAt = 0
        then (l.getD i zeroDelegator).value else 0) +
      (if d.undelegatedAt = 0 then d.value else 0) := by
  unfold liveSum
  exact sum_map_set _ l i d zeroDelegator h

/-- Invariant preservation for the success path of delegate, stated on
the explicit committed state. -/
theorem delegate_core_inv (st : GovState) (caller nodeAddr : Nat)
    (value : Int) (k : Nat) (h : Inv st)
    (hraw : rawOffsByAddr st nodeAddr = k + 1)
    (hnodel : rawDelOff st nodeAddr caller = 0) :
    Inv { st with
      nodes := st.nodes.set k
        { nodeAt st k with staked := (nodeAt st k).staked + value }
      totalStaked := st.totalStaked + value
      delegators := mset st.delegators nodeAddr
        (delegsOf st nodeAddr ++ [{ owner := caller, value := value,
                                    undelegatedAt := 0 }])
      delOff := mset st.delOff (nodeAddr, caller)
        ((delegsOf st nodeAddr).length + 1) } := by
  obtain ⟨hk, hko⟩ := h.addrSound nodeAddr k hraw
  set st' : GovState := { st with
    nodes := st.nodes.set k
      { nodeAt st k with staked := (nodeAt st k).staked + value }
    totalStaked := st.totalStaked + value
    delegators := mset st.delegators nodeAddr
      (delegsOf st nodeAddr ++ [{ owner := caller, value := value,
                                  undelegatedAt := 0 }])
    delOff := mset st.delOff (nodeAddr, caller)
      ((delegsOf st nodeAddr).length + 1) } with hst'
  have hlen' : st'.nodes.length = st.nodes.length := by
    rw [hst']; exact List.length_set st.nodes k _
  have hoffs : ∀ a, rawOffsByAddr st' a = rawOffsByAddr st a := fun a => rfl
  have hnode' : ∀ i, i ≠ k → nodeAt st' i = nodeAt st i := by
    intro i hik
    show (st.nodes.set k _).getD i zeroNode = _
    rw [getD_set_ne _ _ _ _ _ (fun hh => hik hh.symm)]
    rfl
  have hnodek : nodeAt st' k =
      { nodeAt st k with staked := (nodeAt st k).staked + value } := by
    show (st.nodes.set k _).getD k zeroNode = _
    rw [getD_set_self _ _ _ _ hk]
  have howner' : ∀ i, (nodeAt st' i).owner = (nodeAt st i).owner := by
    intro i
    by_cases hik : i = k
    · subst hik; rw [hnodek]
    · rw [hnode' i hik]
  have hdelegs' : ∀ n, delegsOf st' n =
      if n = nodeAddr then
        delegsOf st nodeAddr ++ [{ owner := caller, value := value,
                                   undelegatedAt := 0 }]
      else delegsOf st n := by
    intro n
    show mlookup [] (mset st.delegators nodeAddr _) n = _
    rw [mlookup_mset]
    split <;> rfl
  have hdeloff' : ∀ n d, rawDelOff st' n d =
      if (n, d) = (nodeAddr, caller) then (delegsOf st nodeAddr).length + 1
      else rawDelOff st n d := by
    intro n d
    show mlookup 0 (mset st.delOff (nodeAddr, caller) _) (n, d) = _
    rw [mlookup_mset]
    rfl
  refine ⟨?_, ?_, ?_, ?_, ?_, ?_, ?_⟩
  · intro a j hj
    rw [hoffs] at hj
    obtain ⟨h1, h2⟩ := h.addrSound a j hj
    exact ⟨by omega, by rw [howner']; exact h2⟩
  · intro i hi
    rw [hoffs, howner']
    exact h.addrComplete i (by omega)
  · intro n d j hj
    rw [hdeloff'] at hj
    by_cases hnd : (n, d) = (nodeAddr, caller)
    · rw [if_pos hnd] at hj
      have hn : n = nodeAddr := congrArg Prod.fst hnd
      have hd : d = caller := congrArg Prod.snd hnd
      subst hn
      subst hd
      have hjeq : j = (delegsOf st n).length := by omega
      subst hjeq
      constructor
      · rw [hdelegs', if_pos rfl]
        simp
      · unfold delegatorAt
        rw [hdelegs', if_pos rfl, getD_append_len]
    · rw [if_neg hnd] at hj
      obtain ⟨h1, h2⟩ := h.delSound n d j hj
      rw [hdelegs']
      by_cases hn : n = nodeAddr
      · rw [if_pos hn]
        subst hn
        refine ⟨by simp; omega, ?_⟩
        unfold delegatorAt at h2 ⊢
        rw [hdelegs', if_pos rfl, getD_append_left _ _ _ _ h1]
        exact h2
      · rw [if_neg hn]
        refine ⟨h1, ?_⟩
        unfold delegatorAt at h2 ⊢
        rw [hdelegs', if_neg hn]
        exact h2
  · intro n j hj
    rw [hdelegs'] at hj
    by_cases hn : n = nodeAddr
    · subst hn
      rw [if_pos rfl, List.length_append, List.length_singleton] at hj
      by_cases hjl : j < (delegsOf st n).length
      · have hown : delegatorAt st' n j = delegatorAt st n j := by
          unfold delegatorAt
          rw [hdelegs', if_pos rfl, getD_append_left _ _ _ _ hjl]
        rw [hown, hdeloff']
        have hnc : (delegatorAt st n j).owner ≠ caller := by
          intro he
          have := h.delComplete n j hjl
          rw [he, hnodel] at this
          omega
        rw [if_neg (fun he => hnc (congrArg Prod.snd he))]
        exact h.delComplete n j hjl
      · have hjeq : j = (delegsOf st n).length := by omega
        subst hjeq
        have hown : delegatorAt st' n (delegsOf st n).length =
            { owner := caller, value := value, undelegatedAt := 0 } := by
          unfold delegatorAt
          rw [hdelegs', if_pos rfl, getD_append_len]
        rw [hown, hdeloff', if_pos rfl]
    · rw [if_neg hn] at hj
      have hown : delegatorAt st' n j = delegatorAt st n j := by
        unfold delegatorAt
        rw [hdelegs', if_neg hn]
      rw [hown, hdeloff',
        if_neg (fun he => hn (congrArg Prod.fst he))]
      exact h.delComplete n j hj
  · intro a ha
    rw [hoffs] at ha
    have hne : a ≠ nodeAddr := by
      intro he
      rw [he, hraw] at ha
      omega
    rw [hdelegs', if_neg hne]
    exact h.emptyDelegs a ha
  · show st.totalStaked + value = stakeSum (st.nodes.set k _)
    rw [stakeSum_set _ _ _ hk, h.total]
    show _ = stakeSum st.nodes - (nodeAt st k).staked +
      ((nodeAt st k).staked + value)
    ring
  · intro i hi
    rw [hlen'] at hi
    by_cases hik : i = k
    · rw [hik, hnodek]
      show (nodeAt st k).staked + value =
        liveSum (delegsOf st' (nodeAt st k).owner)
      rw [hko, hdelegs', if_pos rfl, liveSum_append_single,
        h.perNode k hk, hko]
      simp
    · rw [hnode' i hik, hdelegs']
      have hne : (nodeAt st i).owner ≠ nodeAddr := by
        intro he
        apply hik
        exact h.ownerInj i k hi hk (by rw [he, hko])
      rw [if_neg hne]
      exact h.perNode i hi

/-- The committed state of a successful delegate call, explicitly. -/
theorem delegate_eq_success (st : GovState) (caller nodeAddr : Nat)
    (value : Int) (k : Nat)
    (hraw : rawOffsByAddr st nodeAddr = k + 1)
    (hvalue : value ≠ 0)
    (hnodel : rawDelOff st nodeAddr caller = 0) :
    delegate st caller nodeAddr value =
      (.success, { st with
        nodes := st.nodes.set k
          { nodeAt st k with staked := (nodeAt st k).staked + value }
        totalStaked := st.totalStaked + value
        delegators := mset st.delegators nodeAddr
          (delegsOf st nodeAddr ++ [{ owner := caller, value := value,
                                      undelegatedAt := 0 }])
        delOff := mset st.delOff (nodeAddr, caller)
          ((delegsOf st nodeAddr).length + 1) }) := by
  simp only [delegate]
  rw [hraw]
  simp only [Nat.add_sub_cancel]
  rw [if_neg (Nat.succ_ne_zero k), if_neg hvalue, if_neg (by simp [hnodel])]
  rfl

/-- delegate preserves the invariant (on every outcome). -/
theorem delegate_inv (st : GovState) (caller nodeAddr : Nat) (value : Int)
    (h : Inv st) : Inv (delegate st caller nodeAddr value).2 := by
  cases hr : rawOffsByAddr st nodeAddr with
  | zero =>
    have he : delegate st caller nodeAddr value = (.rejected, st) := by
      simp only [delegate]
      rw [hr, if_pos rfl]
    rw [he]
    exact h
  | succ k =>
    by_cases hvalue : value = 0
    · have he : delegate st caller nodeAddr value = (.rejected, st) := by
        simp only [delegate]
        rw [hr, if_neg (Nat.succ_ne_zero k), if_pos hvalue]
      rw [he]
      exact h
    · cases hd : rawDelOff st nodeAddr caller with
      | zero =>
        rw [delegate_eq_success st caller nodeAddr value k hr hvalue hd]
        exact delegate_core_inv st caller nodeAddr value k h hr hd
      | succ j =>
        have he : delegate st caller nodeAddr value = (.rejected, st) := by
          simp only [delegate]
          rw [hr, if_neg (Nat.succ_ne_zero k), if_neg hvalue, hd,
            if_pos (Nat.succ_ne_zero j)]
        rw [he]
        exact h

/-- Invariant preservation for the node-pushing part of stake. -/
theorem stake_push_inv (st : GovState) (caller nk : Nat)
    (publicKey name email location url : List Nat) (h : Inv st)
    (hnew : rawOffsByAddr st caller = 0) :
    Inv { st with
      nodes := st.nodes ++
        [{ owner := caller, publicKey := publicKey, staked := 0,
           fined := 0, name := name, email := email,
           location := location, url := url }]
      offsByNodeKey := mset st.offsByNodeKey nk (st.nodes.length + 1)
      offsByAddr := mset st.offsByAddr caller (st.nodes.length + 1) } := by
  set nd : NodeInfo := {
    owner := caller
    publicKey := publicKey
    staked := 0
    fined := 0
    name := name
    email := email
    location := location
    url := url } with hnd
  set st' : GovState := { st with
    nodes := st.nodes ++ [nd]
    offsByNodeKey := mset st.offsByNodeKey nk (st.nodes.length + 1)
    offsByAddr := mset st.offsByAddr caller (st.nodes.length + 1) } with hst'
  have hlen' : st'.nodes.length = st.nodes.length + 1 := by
    rw [hst']
    show (st.nodes ++ [nd]).length = _
    simp
  have hoffs : ∀ a, rawOffsByAddr st' a =
      if a = caller then st.nodes.length + 1 else rawOffsByAddr st a := by
    intro a
    show mlookup 0 (mset st.offsByAddr caller _) a = _
    rw [mlookup_mset]
    rfl
  have hnode' : ∀ i, i < st.nodes.length → nodeAt st' i = nodeAt st i := by
    intro i hi
    show (st.nodes ++ [nd]).getD i zeroNode = _
    rw [getD_append_left _ _ _ _ hi]
    rfl
  have hnodeL : nodeAt st' st.nodes.length = nd := by
    show (st.nodes ++ [nd]).getD st.nodes.length zeroNode = nd
    exact getD_append_len _ _ _
  have hdelegs' : ∀ n, delegsOf st' n = delegsOf st n := fun n => rfl
  have hdeloff' : ∀ n d, rawDelOff st' n d = rawDelOff st n d := fun n d => rfl
  refine ⟨?_, ?_, ?_, ?_, ?_, ?_, ?_⟩
  · intro a j hj
    rw [hoffs] at hj
    by_cases hac : a = caller
    · rw [if_pos hac] at hj
      have hjeq : j = st.nodes.length := by omega
      subst hjeq
      exact ⟨by omega, by rw [hnodeL, hac]⟩
    · rw [if_neg hac] at hj
      obtain ⟨h1, h2⟩ := h.addrSound a j hj
      exact ⟨by omega, by rw [hnode' j h1]; exact h2⟩
  · intro i hi
    rw [hlen'] at hi
    by_cases hil : i < st.nodes.length
    · rw [hnode' i hil, hoffs]
      have hne : (nodeAt st i).owner ≠ caller := by
        intro he
        have := h.addrComplete i hil
        rw [he, hnew] at this
        omega
      rw [if_neg hne]
      exact h.addrComplete i hil
    · have hieq : i = st.nodes.length := by omega
      subst hieq
      rw [hnodeL, hoffs, if_pos rfl]
  · intro n d j hj
    rw [hdeloff'] at hj
    obtain ⟨h1, h2⟩ := h.delSound n d j hj
    rw [hdelegs']
    exact ⟨h1, by unfold delegatorAt; rw [hdelegs']; exact h2⟩
  · intro n j hj
    rw [hdelegs'] at hj
    rw [hdeloff']
    have : delegatorAt st' n j = delegatorAt st n j := rfl
    rw [this]
    exact h.delComplete n j hj
  · intro a ha
    rw [hoffs] at ha
    by_cases hac : a = caller
    · rw [if_pos hac] at ha
      omega
    · rw [if_neg hac] at ha
      rw [hdelegs']
      exact h.emptyDelegs a ha
  · show st.totalStaked = stakeSum (st.nodes ++ [nd])
    unfold stakeSum
    rw [sum_map_append_single]
    have : nd.staked = 0 := rfl
    rw [this, h.total]
    show stakeSum st.nodes = stakeSum st.nodes + 0
    ring
  · intro i hi
    rw [hlen'] at hi
    by_cases hil : i < st.nodes.length
    · rw [hnode' i hil, hdelegs']
      exact h.perNode i hil
    · have hieq : i = st.nodes.length := by omega
      subst hieq
      rw [hnodeL, hdelegs']
      show (0 : Int) = liveSum (delegsOf st nd.owner)
      rw [show nd.owner = caller from rfl, h.emptyDelegs caller hnew]
      rfl

/-- stake preserves the invariant (on every outcome). -/
theorem stake_inv (pubKeyAddr : List Nat → Option Nat) (st : GovState)
    (caller : Nat) (value : Int)
    (publicKey name email location url : List Nat) (h : Inv st) :
    Inv (stake pubKeyAddr st caller value publicKey name email location
      url).2 := by
  simp only [stake]
  split
  · exact h
  split
  · exact h
  next hb =>
    have hnew : rawOffsByAddr st caller = 0 := by
      by_cases hc : rawOffsByAddr st caller = 0
      · exact hc
      · exact absurd hc hb
    split
    next => exact h
    next nk hpk =>
      have hst3 := stake_push_inv st caller nk publicKey name email
        location url h hnew
      split
      · cases hdel : delegate { st with
          nodes := st.nodes ++
            [{ owner := caller, publicKey := publicKey, staked := 0,
               fined := 0, name := name, email := email,
               location := location, url := url }]
          offsByNodeKey := mset st.offsByNodeKey nk (st.nodes.length + 1)
          offsByAddr := mset st.offsByAddr caller (st.nodes.length + 1) }
          caller caller value with
        | mk r st4 =>
          have hdinv := delegate_inv _ caller caller value hst3
          rw [hdel] at hdinv
          cases r with
          | success => exact hdinv
          | rejected => exact h
          | penalized => exact h
          | fatal => exact h
      · exact hst3

theorem liveSum_dropLast (l : List DelegatorInfo) (h : l ≠ []) :
    liveSum l.dropLast = liveSum l -
      (if (l.getD (l.length - 1) zeroDelegator).undelegatedAt = 0
        then (l.getD (l.length - 1) zeroDelegator).value else 0) := by
  unfold liveSum
  exact sum_map_dropLast _ l zeroDelegator h

theorem stakeSum_dropLast (l : List NodeInfo) (h : l ≠ []) :
    stakeSum l.dropLast =
      stakeSum l - (l.getD (l.length - 1) zeroNode).staked := by
  unfold stakeSum
  exact sum_map_dropLast _ l zeroNode h

/-- Invariant preservation for the success state of undelegateHelper;
the logical time must be nonzero, since stamping a row with time 0 would
leave it counted as live. -/
theorem undelegateHelper_core_inv (st : GovState)
    (nodeAddr caller now : Nat) (k j : Nat) (h : Inv st) (hnow : now ≠ 0)
    (hraw : rawOffsByAddr st nodeAddr = k + 1)
    (hdoff : rawDelOff st nodeAddr caller = j + 1)
    (hlive : (delegatorAt st nodeAddr j).undelegatedAt = 0) :
    Inv { st with
      delegators := mset st.delegators nodeAddr
        ((delegsOf st nodeAddr).set j
          { delegatorAt st nodeAddr j with undelegatedAt := now })
      nodes := st.nodes.set k
        { nodeAt st k with
          staked := (nodeAt st k).staked -
            (delegatorAt st nodeAddr j).value }
      totalStaked := st.totalStaked -
        (delegatorAt st nodeAddr j).value } := by
  obtain ⟨hk, hko⟩ := h.addrSound nodeAddr k hraw
  obtain ⟨hj, hjo⟩ := h.delSound nodeAddr caller j hdoff
  set d : DelegatorInfo := delegatorAt st nodeAddr j with hd
  set st' : GovState := { st with
    delegators := mset st.delegators nodeAddr
      ((delegsOf st nodeAddr).set j { d with undelegatedAt := now })
    nodes := st.nodes.set k
      { nodeAt st k with staked := (nodeAt st k).staked - d.value }
    totalStaked := st.totalStaked - d.value } with hst'
  have hlen' : st'.nodes.length = st.nodes.length := by
    rw [hst']
    exact List.length_set st.nodes k _
  have hoffs : ∀ a, rawOffsByAddr st' a = rawOffsByAddr st a := fun a => rfl
  have hnode' : ∀ i, i ≠ k → nodeAt st' i = nodeAt st i := by
    intro i hik
    show (st.nodes.set k _).getD i zeroNode = _
    rw [getD_set_ne _ _ _ _ _ (fun hh => hik hh.symm)]
    rfl
  have hnodek : nodeAt st' k =
      { nodeAt st k with staked := (nodeAt st k).staked - d.value } := by
    show (st.nodes.set k _).getD k zeroNode = _
    rw [getD_set_self _ _ _ _ hk]
  have howner' : ∀ i, (nodeAt st' i).owner = (nodeAt st i).owner := by
    intro i
    by_cases hik : i = k
    · subst hik
      rw [hnodek]
    · rw [hnode' i hik]
  have hdelegs' : ∀ n, delegsOf st' n =
      if n = nodeAddr then
        (delegsOf st nodeAddr).set j { d with undelegatedAt := now }
      else delegsOf st n := by
    intro n
    show mlookup [] (mset st.delegators nodeAddr _) n = _
    rw [mlookup_mset]
    split <;> rfl
  have hdlen : ∀ n, (delegsOf st' n).length = (delegsOf st n).length := by
    intro n
    rw [hdelegs']
    split
    · next hn => rw [hn, List.length_set]
    · rfl
  have hrowO : ∀ n j', (delegatorAt st' n j').owner =
      (delegatorAt st n j').owner := by
    intro n j'
    unfold delegatorAt
    rw [hdelegs']
    split
    · next hn =>
      subst hn
      by_cases hjj : j' = j
      · subst hjj
        rw [getD_set_self _ _ _ _ hj]
        rfl
      · rw [getD_set_ne _ _ _ _ _ (fun hh => hjj hh.symm)]
    · rfl
  have hdeloff' : ∀ n dd, rawDelOff st' n dd = rawDelOff st n dd :=
    fun n dd => rfl
  refine ⟨?_, ?_, ?_, ?_, ?_, ?_, ?_⟩
  · intro a jj hjj
    rw [hoffs] at hjj
    obtain ⟨h1, h2⟩ := h.addrSound a jj hjj
    exact ⟨by omega, by rw [howner']; exact h2⟩
  · intro i hi
    rw [hoffs, howner']
    exact h.addrComplete i (by omega)
  · intro n dd jj hjj
    rw [hdeloff'] at hjj
    obtain ⟨h1, h2⟩ := h.delSound n dd jj hjj
    refine ⟨by rw [hdlen]; exact h1, by rw [hrowO]; exact h2⟩
  · intro n jj hjj
    rw [hdlen] at hjj
    rw [hdeloff', hrowO]
    exact h.delComplete n jj hjj
  · intro a ha
    rw [hoffs] at ha
    have hne : a ≠ nodeAddr := by
      intro he
      rw [he, hraw] at ha
      omega
    rw [hdelegs', if_neg hne]
    exact h.emptyDelegs a ha
  · show st.totalStaked - d.value = stakeSum (st.nodes.set k _)
    rw [stakeSum_set _ _ _ hk, h.total]
    show _ = stakeSum st.nodes - (nodeAt st k).staked +
      ((nodeAt st k).staked - d.value)
    ring
  · intro i hi
    rw [hlen'] at hi
    by_cases hik : i = k
    · rw [hik, hnodek]
      show (nodeAt st k).staked - d.value =
        liveSum (delegsOf st' (nodeAt st k).owner)
      rw [hko, hdelegs', if_pos rfl, liveSum_set _ _ _ hj]
      have hc1 : (if ((delegsOf st nodeAddr).getD j
          zeroDelegator).undelegatedAt = 0
          then ((delegsOf st nodeAddr).getD j zeroDelegator).value
          else 0) = d.value := by
        rw [if_pos (show ((delegsOf st nodeAddr).getD j
          zeroDelegator).undelegatedAt = 0 from hlive)]
        rfl
      have hc2 : (if ({ d with undelegatedAt := now } :
          DelegatorInfo).undelegatedAt = 0
          then ({ d with undelegatedAt := now} : DelegatorInfo).value
          else 0) = 0 := by
        rw [if_neg]
        exact hnow
      rw [hc1, hc2, h.perNode k hk, hko]
      ring
    · rw [hnode' i hik, hdelegs']
      have hne : (nodeAt st i).owner ≠ nodeAddr := by
        intro he
        apply hik
        exact h.ownerInj i k hi hk (by rw [he, hko])
      rw [if_neg hne]
      exact h.perNode i hi

/-- undelegateHelper preserves the invariant (on every outcome), given a
nonzero logical time. -/
theorem undelegateHelper_inv (st : GovState) (nodeAddr caller now : Nat)
    (hnow : now ≠ 0) (h : Inv st) :
    Inv (undelegateHelper st nodeAddr caller now).2 := by
  cases hr : rawOffsByAddr st nodeAddr with
  | zero =>
    have he : undelegateHelper st nodeAddr caller now = (.rejected, st) := by
      simp only [undelegateHelper]
      rw [hr, if_pos rfl]
    rw [he]
    exact h
  | succ k =>
    cases hd : rawDelOff st nodeAddr caller with
    | zero =>
      have he : undelegateHelper st nodeAddr caller now = (.rejected, st) := by
        simp only [undelegateHelper]
        rw [hr, if_neg (Nat.succ_ne_zero k), hd, if_pos rfl]
      rw [he]
      exact h
    | succ j =>
      by_cases hfin : (nodeAt st k).fined > 0
      · have he : undelegateHelper st nodeAddr caller now =
            (.rejected, st) := by
          simp only [undelegateHelper]
          rw [hr, hd]
          simp only [Nat.add_sub_cancel]
          rw [if_neg (Nat.succ_ne_zero k), if_neg (Nat.succ_ne_zero j),
            if_pos hfin]
        rw [he]
        exact h
      · by_cases hlive : (delegatorAt st nodeAddr j).undelegatedAt = 0
        · rw [undelegateHelper_success_state st nodeAddr caller now k j hr
            hfin hd hlive]
          exact undelegateHelper_core_inv st nodeAddr caller now k j h hnow
            hr hd hlive
        · rw [undelegateHelper_rejects_dead st nodeAddr caller now k j hr
            hfin hd hlive]
          exact h

theorem delegsOf_setDelegs_self (st : GovState) (n : Nat)
    (ds : List DelegatorInfo) : delegsOf (setDelegs st n ds) n = ds := by
  show mlookup [] (mset st.delegators n ds) n = ds
  rw [mlookup_mset, if_pos rfl]

theorem delegsOf_withDelOff (X : GovState) (y : List ((Nat × Nat) × Nat))
    (n : Nat) : delegsOf { X with delOff := y } n = delegsOf X n := rfl

/-- The committed state of the swap branch of removeDelegator. -/
theorem removeDelegator_eq_swap (st : GovState) (nodeAddr caller j : Nat)
    (hswap : j ≠ (delegsOf st nodeAddr).length - 1) :
    removeDelegator st nodeAddr caller j =
      setDelegs { st with
        delegators := mset st.delegators nodeAddr
          ((delegsOf st nodeAddr).set j
            (delegatorAt st nodeAddr ((delegsOf st nodeAddr).length - 1)))
        delOff := mset (mset st.delOff
          (nodeAddr, (delegatorAt st nodeAddr
            ((delegsOf st nodeAddr).length - 1)).owner) (j + 1))
          (nodeAddr, caller) 0 }
        nodeAddr
        ((delegsOf st nodeAddr).set j
          (delegatorAt st nodeAddr
            ((delegsOf st nodeAddr).length - 1))).dropLast := by
  simp only [removeDelegator]
  rw [if_pos hswap]
  rfl

/-- The committed state of the no-swap branch of removeDelegator. -/
theorem removeDelegator_eq_last (st : GovState) (nodeAddr caller j : Nat)
    (hswap : j = (delegsOf st nodeAddr).length - 1) :
    removeDelegator st nodeAddr caller j =
      setDelegs { st with delOff := mset st.delOff (nodeAddr, caller) 0 }
        nodeAddr (delegsOf st nodeAddr).dropLast := by
  simp only [removeDelegator]
  rw [if_neg (by omega : ¬ j ≠ (delegsOf st nodeAddr).length - 1)]

/-- Invariant preservation for the delegator swap-delete block of
withdraw, given that the removed row is already undelegated (which the
withdraw guards ensure). -/
theorem removeDelegator_inv (st : GovState) (nodeAddr caller : Nat)
    (j k : Nat) (h : Inv st)
    (hraw : rawOffsByAddr st nodeAddr = k + 1)
    (hdoff : rawDelOff st nodeAddr caller = j + 1)
    (hdead : (delegatorAt st nodeAddr j).undelegatedAt ≠ 0) :
    Inv (removeDelegator st nodeAddr caller j) := by
  obtain ⟨hj, hjo⟩ := h.delSound nodeAddr caller j hdoff
  have hlenpos : 0 < (delegsOf st nodeAddr).length := by omega
  by_cases hswap : j = (delegsOf st nodeAddr).length - 1
  · rw [removeDelegator_eq_last st nodeAddr caller j hswap]
    set L : List DelegatorInfo := delegsOf st nodeAddr with hL
    set len : Nat := L.length with hlen
    set stR : GovState := setDelegs
      { st with delOff := mset st.delOff (nodeAddr, caller) 0 }
      nodeAddr L.dropLast with hstR
    have hdelegsR : ∀ n', delegsOf stR n' =
        if n' = nodeAddr then L.dropLast else delegsOf st n' := by
      intro n'
      show mlookup [] (mset st.delegators nodeAddr L.dropLast) n' = _
      rw [mlookup_mset]
      split <;> rfl
    have hdeloffR : ∀ n' d', rawDelOff stR n' d' =
        if (n', d') = (nodeAddr, caller) then 0
        else rawDelOff st n' d' := by
      intro n' d'
      show mlookup 0 (mset st.delOff (nodeAddr, caller) 0) (n', d') = _
      rw [mlookup_mset]
      rfl
    have hlenR : (delegsOf stR nodeAddr).length = len - 1 := by
      rw [hdelegsR, if_pos rfl, List.length_dropLast]
    have hrowR : ∀ i, i < len - 1 → delegatorAt stR nodeAddr i =
        delegatorAt st nodeAddr i := by
      intro i hi
      unfold delegatorAt
      rw [hdelegsR, if_pos rfl, getD_dropLast _ _ _ hi]
    have hoffsR : ∀ a, rawOffsByAddr stR a = rawOffsByAddr st a :=
      fun a => rfl
    have hnodeR : ∀ i, nodeAt stR i = nodeAt st i := fun i => rfl
    refine ⟨?_, ?_, ?_, ?_, ?_, ?_, ?_⟩
    · exact fun a j' hj' => h.addrSound a j' hj'
    · exact fun i hi => h.addrComplete i hi
    · intro n' d' j'' hj''
      rw [hdeloffR] at hj''
      by_cases h1 : (n', d') = (nodeAddr, caller)
      · rw [if_pos h1] at hj''
        omega
      · rw [if_neg h1] at hj''
        obtain ⟨hjs, hos⟩ := h.delSound n' d' j'' hj''
        by_cases hn' : n' = nodeAddr
        · subst hn'
          rw [← hL] at hjs
          have hd'c : d' ≠ caller := fun he => h1 (by rw [he])
          have hne1 : j'' ≠ j := by
            intro he
            rw [he] at hos
            exact hd'c (hos.symm.trans hjo)
          refine ⟨by rw [hlenR]; omega, ?_⟩
          rw [hrowR j'' (by omega)]
          exact hos
        · refine ⟨?_, ?_⟩
          · rw [show (delegsOf stR n').length = (delegsOf st n').length
              from by rw [hdelegsR, if_neg hn']]
            exact hjs
          · show (delegatorAt stR n' j'').owner = d'
            unfold delegatorAt
            rw [hdelegsR, if_neg hn']
            exact hos
    · intro n' j'' hj''
      by_cases hn' : n' = nodeAddr
      · subst hn'
        rw [hlenR] at hj''
        rw [hdeloffR, hrowR j'' hj'']
        have ho1 : (delegatorAt st n' j'').owner ≠ caller := by
          intro he
          have := h.delComplete n' j'' (by rw [← hL]; omega)
          rw [he, hdoff] at this
          omega
        rw [if_neg (fun he => ho1 (congrArg Prod.snd he))]
        exact h.delComplete n' j'' (by rw [← hL]; omega)
      · have hlen' : (delegsOf stR n').length = (delegsOf st n').length := by
          rw [hdelegsR, if_neg hn']
        rw [hlen'] at hj''
        have hrow' : delegatorAt stR n' j'' = delegatorAt st n' j'' := by
          unfold delegatorAt
          rw [hdelegsR, if_neg hn']
        rw [hdeloffR, hrow',
          if_neg (fun he => hn' (congrArg Prod.fst he))]
        exact h.delComplete n' j'' hj''
    · intro a ha
      rw [hoffsR] at ha
      have hne : a ≠ nodeAddr := by
        intro he
        rw [he, hraw] at ha
        omega
      rw [hdelegsR, if_neg hne]
      exact h.emptyDelegs a ha
    · exact h.total
    · intro i hi
      rw [hnodeR, hdelegsR]
      by_cases hio : (nodeAt st i).owner = nodeAddr
      · rw [if_pos hio]
        have hLne : L ≠ [] := by
          intro he
          rw [hlen, he] at hlenpos
          simp at hlenpos
        have hdrop : liveSum L.dropLast = liveSum L := by
          rw [liveSum_dropLast _ hLne]
          rw [show L.getD (L.length - 1) zeroDelegator =
            delegatorAt st nodeAddr j from by rw [hswap]; rfl]
          rw [if_neg hdead]
          ring
        rw [hdrop]
        have := h.perNode i hi
        rw [hio] at this
        exact this
      · rw [if_neg hio]
        exact h.perNode i hi
  · rw [removeDelegator_eq_swap st nodeAddr caller j hswap]
    set L : List DelegatorInfo := delegsOf st nodeAddr with hL
    set len : Nat := L.length with hlen
    set lastD : DelegatorInfo := delegatorAt st nodeAddr (len - 1) with hlastD
    have hjlt : j < len - 1 := by omega
    have hlast : len - 1 < len := by omega
    have hlco : lastD.owner ≠ caller := by
      intro he
      have hcomp := h.delComplete nodeAddr (len - 1) hlast
      rw [show delegatorAt st nodeAddr (len - 1) = lastD from rfl, he,
        hdoff] at hcomp
      omega
    set stR : GovState := setDelegs { st with
        delegators := mset st.delegators nodeAddr (L.set j lastD)
        delOff := mset (mset st.delOff (nodeAddr, lastD.owner) (j + 1))
          (nodeAddr, caller) 0 }
      nodeAddr (L.set j lastD).dropLast with hstR
    have hdelegsR : ∀ n', delegsOf stR n' =
        if n' = nodeAddr then (L.set j lastD).dropLast
        else delegsOf st n' := by
      intro n'
      show mlookup [] (mset (mset st.delegators nodeAddr (L.set j lastD))
        nodeAddr (L.set j lastD).dropLast) n' = _
      rw [mlookup_mset]
      by_cases hn' : n' = nodeAddr
      · rw [if_pos hn', if_pos hn']
      · rw [if_neg hn', if_neg hn', mlookup_mset, if_neg hn']
        rfl
    have hdeloffR : ∀ n' d', rawDelOff stR n' d' =
        if (n', d') = (nodeAddr, caller) then 0
        else if (n', d') = (nodeAddr, lastD.owner) then j + 1
        else rawDelOff st n' d' := by
      intro n' d'
      show mlookup 0 (mset (mset st.delOff (nodeAddr, lastD.owner) (j + 1))
        (nodeAddr, caller) 0) (n', d') = _
      rw [mlookup_mset, mlookup_mset]
      rfl
    have hlenR : (delegsOf stR nodeAddr).length = len - 1 := by
      rw [hdelegsR, if_pos rfl, List.length_dropLast, List.length_set]
    have hrowR : ∀ i, i < len - 1 → delegatorAt stR nodeAddr i =
        if i = j then lastD else delegatorAt st nodeAddr i := by
      intro i hi
      unfold delegatorAt
      rw [hdelegsR, if_pos rfl,
        getD_dropLast _ _ _ (by rw [List.length_set]; omega)]
      by_cases hij : i = j
      · rw [if_pos hij, hij, getD_set_self _ _ _ _ hj]
      · rw [if_neg hij]
        exact getD_set_ne _ _ _ _ _ (fun hh => hij hh.symm)
    have hoffsR : ∀ a, rawOffsByAddr stR a = rawOffsByAddr st a :=
      fun a => rfl
    have hnodeR : ∀ i, nodeAt stR i = nodeAt st i := fun i => rfl
    have hlastrow : (L.set j lastD).getD (len - 1) zeroDelegator = lastD :=
      getD_set_ne _ _ _ _ _ hswap
    refine ⟨?_, ?_, ?_, ?_, ?_, ?_, ?_⟩
    · exact fun a j' hj' => h.addrSound a j' hj'
    · exact fun i hi => h.addrComplete i hi
    · intro n' d' j'' hj''
      rw [hdeloffR] at hj''
      by_cases h1 : (n', d') = (nodeAddr, caller)
      · rw [if_pos h1] at hj''
        omega
      · rw [if_neg h1] at hj''
        by_cases h2 : (n', d') = (nodeAddr, lastD.owner)
        · rw [if_pos h2] at hj''
          have hn' : n' = nodeAddr := congrArg Prod.fst h2
          have hd' : d' = lastD.owner := congrArg Prod.snd h2
          have hj''j : j'' = j := by omega
          subst hj''j
          subst hn'
          subst hd'
          refine ⟨by rw [hlenR]; omega, ?_⟩
          rw [hrowR j'' (by omega), if_pos rfl]
        · rw [if_neg h2] at hj''
          obtain ⟨hjs, hos⟩ := h.delSound n' d' j'' hj''
          by_cases hn' : n' = nodeAddr
          · subst hn'
            rw [← hL] at hjs
            have hd'c : d' ≠ caller :=
              fun he => h1 (by rw [he])
            have hd'l : d' ≠ lastD.owner :=
              fun he => h2 (by rw [he])
            have hne1 : j'' ≠ j := by
              intro he
              rw [he] at hos
              exact hd'c (hos.symm.trans hjo)
            have hne2 : j'' ≠ len - 1 := by
              intro he
              rw [he] at hos
              exact hd'l hos.symm
            refine ⟨by rw [hlenR]; omega, ?_⟩
            rw [hrowR j'' (by omega), if_neg hne1]
            exact hos
          · refine ⟨?_, ?_⟩
            · rw [show (delegsOf stR n').length = (delegsOf st n').length
                from by rw [hdelegsR, if_neg hn']]
              exact hjs
            · show (delegatorAt stR n' j'').owner = d'
              unfold delegatorAt
              rw [hdelegsR, if_neg hn']
              exact hos
    · intro n' j'' hj''
      by_cases hn' : n' = nodeAddr
      · subst hn'
        rw [hlenR] at hj''
        rw [hdeloffR, hrowR j'' hj'']
        by_cases hij : j'' = j
        · rw [if_pos hij,
            if_neg (fun he => hlco (congrArg Prod.snd he)), if_pos rfl]
          omega
        · rw [if_neg hij]
          have ho1 : (delegatorAt st n' j'').owner ≠ caller := by
            intro he
            have := h.delComplete n' j'' (by rw [← hL]; omega)
            rw [he, hdoff] at this
            omega
          have ho2 : (delegatorAt st n' j'').owner ≠ lastD.owner := by
            intro he
            have hc1 := h.delComplete n' j'' (by rw [← hL]; omega)
            have hc2 := h.delComplete n' (len - 1) hlast
            rw [he] at hc1
            rw [show delegatorAt st n' (len - 1) = lastD from rfl] at hc2
            rw [hc2] at hc1
            omega
          rw [if_neg (fun he => ho1 (congrArg Prod.snd he)),
            if_neg (fun he => ho2 (congrArg Prod.snd he))]
          exact h.delComplete n' j'' (by rw [← hL]; omega)
      · have hlen' : (delegsOf stR n').length = (delegsOf st n').length := by
          rw [hdelegsR, if_neg hn']
        rw [hlen'] at hj''
        have hrow' : delegatorAt stR n' j'' = delegatorAt st n' j'' := by
          unfold delegatorAt
          rw [hdelegsR, if_neg hn']
        rw [hdeloffR, hrow',
          if_neg (fun he => hn' (congrArg Prod.fst he)),
          if_neg (fun he => hn' (congrArg Prod.fst he))]
        exact h.delComplete n' j'' hj''
    · intro a ha
      rw [hoffsR] at ha
      have hne : a ≠ nodeAddr := by
        intro he
        rw [he, hraw] at ha
        omega
      rw [hdelegsR, if_neg hne]
      exact h.emptyDelegs a ha
    · exact h.total
    · intro i hi
      rw [hnodeR, hdelegsR]
      by_cases hio : (nodeAt st i).owner = nodeAddr
      · rw [if_pos hio]
        have hliveset : liveSum (L.set j lastD) = liveSum L +
            (if lastD.undelegatedAt = 0 then lastD.value else 0) := by
          rw [liveSum_set _ _ _ hj]
          rw [if_neg (show ¬ (L.getD j zeroDelegator).undelegatedAt = 0
            from hdead)]
          ring
        have hsetne : L.set j lastD ≠ [] := by
          intro he
          have hls := List.length_set L j lastD
          rw [he] at hls
          simp at hls
          omega
        have hdrop : liveSum (L.set j lastD).dropLast =
            liveSum (L.set j lastD) -
              (if lastD.undelegatedAt = 0 then lastD.value else 0) := by
          rw [liveSum_dropLast _ hsetne, List.length_set]
          rw [hlastrow]
        rw [hdrop, hliveset]
        have hpn := h.perNode i hi
        rw [hio] at hpn
        rw [hpn]
        ring
      · rw [if_neg hio]
        exact h.perNode i hi


/-- The committed state of the swap branch of removeNode. -/
theorem removeNode_eq_swap (pubKeyAddr : List Nat → Option Nat)
    (st : GovState) (nodeAddr k nk : Nat)
    (hlast : k ≠ st.nodes.length - 1)
    (hpk : pubKeyAddr (nodeAt st (st.nodes.length - 1)).publicKey =
      some nk) :
    removeNode pubKeyAddr st nodeAddr k = some { st with
      nodes := (st.nodes.set k (nodeAt st (st.nodes.length - 1))).dropLast
      offsByNodeKey := mset st.offsByNodeKey nk (k + 1)
      offsByAddr := mset (mset st.offsByAddr
        (nodeAt st (st.nodes.length - 1)).owner (k + 1)) nodeAddr 0 } := by
  simp only [removeNode]
  rw [if_pos hlast, hpk]
  rfl

/-- The committed state of the no-swap branch of removeNode. -/
theorem removeNode_eq_last (pubKeyAddr : List Nat → Option Nat)
    (st : GovState) (nodeAddr k : Nat)
    (hlast : k = st.nodes.length - 1) :
    removeNode pubKeyAddr st nodeAddr k = some { st with
      nodes := st.nodes.dropLast
      offsByAddr := mset st.offsByAddr nodeAddr 0 } := by
  simp only [removeNode]
  rw [if_neg (by omega : ¬ k ≠ st.nodes.length - 1)]

/-- Invariant preservation for the swap branch of removeNode, given that
the removed node's delegator list is empty (so its staked is 0). -/
theorem removeNode_swap_inv (st : GovState) (nodeAddr k nk : Nat)
    (h : Inv st)
    (hraw : rawOffsByAddr st nodeAddr = k + 1)
    (hempty : delegsOf st nodeAddr = [])
    (hlast : k ≠ st.nodes.length - 1) :
    Inv { st with
      nodes := (st.nodes.set k (nodeAt st (st.nodes.length - 1))).dropLast
      offsByNodeKey := mset st.offsByNodeKey nk (k + 1)
      offsByAddr := mset (mset st.offsByAddr
        (nodeAt st (st.nodes.length - 1)).owner (k + 1)) nodeAddr 0 } := by
  obtain ⟨hk, hko⟩ := h.addrSound nodeAddr k hraw
  have hklt : k < st.nodes.length - 1 := by omega
  have hstk : (nodeAt st k).staked = 0 := by
    have hp := h.perNode k hk
    rw [hko, hempty] at hp
    simpa [liveSum] using hp
  have hlo : (nodeAt st (st.nodes.length - 1)).owner ≠ nodeAddr := by
    intro he
    have := h.ownerInj (st.nodes.length - 1) k (by omega) hk
      (by rw [hko]; exact he)
    omega
  set stR : GovState := { st with
    nodes := (st.nodes.set k (nodeAt st (st.nodes.length - 1))).dropLast
    offsByNodeKey := mset st.offsByNodeKey nk (k + 1)
    offsByAddr := mset (mset st.offsByAddr
      (nodeAt st (st.nodes.length - 1)).owner (k + 1)) nodeAddr 0 }
    with hstR
  have hoffsR : ∀ a, rawOffsByAddr stR a =
      if a = nodeAddr then 0
      else if a = (nodeAt st (st.nodes.length - 1)).owner then k + 1
      else rawOffsByAddr st a := by
    intro a
    show mlookup 0 (mset (mset st.offsByAddr
      ((nodeAt st (st.nodes.length - 1)).owner) (k + 1)) nodeAddr 0) a = _
    rw [mlookup_mset, mlookup_mset]
    rfl
  have hlenR : stR.nodes.length = st.nodes.length - 1 := by
    rw [show stR.nodes =
      (st.nodes.set k (nodeAt st (st.nodes.length - 1))).dropLast from rfl]
    rw [List.length_dropLast, List.length_set]
  have hnodeR : ∀ i, i < st.nodes.length - 1 → nodeAt stR i =
      if i = k then nodeAt st (st.nodes.length - 1) else nodeAt st i := by
    intro i hi
    show ((st.nodes.set k (nodeAt st (st.nodes.length - 1))).dropLast).getD
      i zeroNode = _
    rw [getD_dropLast _ _ _ (by rw [List.length_set]; omega)]
    by_cases hik : i = k
    · rw [if_pos hik, hik]
      exact getD_set_self _ _ _ _ hk
    · rw [if_neg hik]
      exact getD_set_ne _ _ _ _ _ (fun hh => hik hh.symm)
  refine ⟨?_, ?_, ?_, ?_, ?_, ?_, ?_⟩
  · intro a j' hj'
    rw [hoffsR] at hj'
    by_cases h1 : a = nodeAddr
    · rw [if_pos h1] at hj'
      exact absurd hj' (by omega)
    · rw [if_neg h1] at hj'
      by_cases h2 : a = (nodeAt st (st.nodes.length - 1)).owner
      · rw [if_pos h2] at hj'
        have hjk : j' = k := by omega
        subst hjk
        refine ⟨by rw [hlenR]; omega, ?_⟩
        rw [hnodeR j' hklt, if_pos rfl]
        exact h2.symm
      · rw [if_neg h2] at hj'
        obtain ⟨hjs, hos⟩ := h.addrSound a j' hj'
        have hne1 : j' ≠ k := by
          intro he
          rw [he, hko] at hos
          exact h1 hos.symm
        have hne2 : j' ≠ st.nodes.length - 1 := by
          intro he
          rw [he] at hos
          exact h2 hos.symm
        refine ⟨by rw [hlenR]; omega, ?_⟩
        rw [hnodeR j' (by omega), if_neg hne1]
        exact hos
  · intro i hi
    rw [hlenR] at hi
    rw [hnodeR i hi, hoffsR]
    by_cases hik : i = k
    · rw [if_pos hik, if_neg hlo, if_pos rfl]
      omega
    · rw [if_neg hik]
      have ho1 : (nodeAt st i).owner ≠ nodeAddr := by
        intro he
        have := h.ownerInj i k (by omega) hk (by rw [he]; exact hko.symm)
        exact hik this
      have ho2 : (nodeAt st i).owner ≠
          (nodeAt st (st.nodes.length - 1)).owner := by
        intro he
        have := h.ownerInj i (st.nodes.length - 1) (by omega) (by omega) he
        omega
      rw [if_neg ho1, if_neg ho2]
      exact h.addrComplete i (by omega)
  · exact fun n d j hj => h.delSound n d j hj
  · exact fun n j hj => h.delComplete n j hj
  · intro a ha
    rw [hoffsR] at ha
    show delegsOf st a = []
    by_cases h1 : a = nodeAddr
    · rw [h1]
      exact hempty
    · rw [if_neg h1] at ha
      by_cases h2 : a = (nodeAt st (st.nodes.length - 1)).owner
      · rw [if_pos h2] at ha
        exact absurd ha (by omega)
      · rw [if_neg h2] at ha
        exact h.emptyDelegs a ha
  · show st.totalStaked = stakeSum stR.nodes
    rw [show stR.nodes =
      (st.nodes.set k (nodeAt st (st.nodes.length - 1))).dropLast from rfl]
    have hsetne : st.nodes.set k (nodeAt st (st.nodes.length - 1)) ≠ [] := by
      intro he
      have hls := List.length_set st.nodes k
        (nodeAt st (st.nodes.length - 1))
      rw [he] at hls
      simp at hls
      omega
    rw [stakeSum_dropLast _ hsetne, List.length_set,
      getD_set_ne _ _ _ _ _ hlast, stakeSum_set _ _ _ hk,
      show st.nodes.getD k zeroNode = nodeAt st k from rfl,
      show st.nodes.getD (st.nodes.length - 1) zeroNode =
        nodeAt st (st.nodes.length - 1) from rfl,
      hstk, h.total]
    ring
  · intro i hi
    rw [hlenR] at hi
    rw [hnodeR i hi]
    by_cases hik : i = k
    · rw [if_pos hik]
      show (nodeAt st (st.nodes.length - 1)).staked =
        liveSum (delegsOf st (nodeAt st (st.nodes.length - 1)).owner)
      exact h.perNode (st.nodes.length - 1) (by omega)
    · rw [if_neg hik]
      show (nodeAt st i).staked = liveSum (delegsOf st (nodeAt st i).owner)
      exact h.perNode i (by omega)

/-- Invariant preservation for the no-swap branch of removeNode. -/
theorem removeNode_last_inv (st : GovState) (nodeAddr k : Nat)
    (h : Inv st)
    (hraw : rawOffsByAddr st nodeAddr = k + 1)
    (hempty : delegsOf st nodeAddr = [])
    (hlast : k = st.nodes.length - 1) :
    Inv { st with
      nodes := st.nodes.dropLast
      offsByAddr := mset st.offsByAddr nodeAddr 0 } := by
  obtain ⟨hk, hko⟩ := h.addrSound nodeAddr k hraw
  have hnne : st.nodes ≠ [] := by
    intro he
    rw [he] at hk
    simp at hk
  have hstk : (nodeAt st k).staked = 0 := by
    have hp := h.perNode k hk
    rw [hko, hempty] at hp
    simpa [liveSum] using hp
  set stR : GovState := { st with
    nodes := st.nodes.dropLast
    offsByAddr := mset st.offsByAddr nodeAddr 0 } with hstR
  have hoffsR : ∀ a, rawOffsByAddr stR a =
      if a = nodeAddr then 0 else rawOffsByAddr st a := by
    intro a
    show mlookup 0 (mset st.offsByAddr nodeAddr 0) a = _
    rw [mlookup_mset]
    rfl
  have hlenR : stR.nodes.length = st.nodes.length - 1 := by
    rw [show stR.nodes = st.nodes.dropLast from rfl, List.length_dropLast]
  have hnodeR : ∀ i, i < st.nodes.length - 1 →
      nodeAt stR i = nodeAt st i := by
    intro i hi
    show (st.nodes.dropLast).getD i zeroNode = _
    rw [getD_dropLast _ _ _ hi]
    rfl
  refine ⟨?_, ?_, ?_, ?_, ?_, ?_, ?_⟩
  · intro a j' hj'
    rw [hoffsR] at hj'
    by_cases h1 : a = nodeAddr
    · rw [if_pos h1] at hj'
      exact absurd hj' (by omega)
    · rw [if_neg h1] at hj'
      obtain ⟨hjs, hos⟩ := h.addrSound a j' hj'
      have hne1 : j' ≠ k := by
        intro he
        rw [he, hko] at hos
        exact h1 hos.symm
      refine ⟨by rw [hlenR]; omega, ?_⟩
      rw [hnodeR j' (by omega)]
      exact hos
  · intro i hi
    rw [hlenR] at hi
    rw [hnodeR i hi, hoffsR]
    have ho1 : (nodeAt st i).owner ≠ nodeAddr := by
      intro he
      have := h.ownerInj i k (by omega) hk (by rw [he]; exact hko.symm)
      omega
    rw [if_neg ho1]
    exact h.addrComplete i (by omega)
  · exact fun n d j hj => h.delSound n d j hj
  · exact fun n j hj => h.delComplete n j hj
  · intro a ha
    rw [hoffsR] at ha
    show delegsOf st a = []
    by_cases h1 : a = nodeAddr
    · rw [h1]
      exact hempty
    · rw [if_neg h1] at ha
      exact h.emptyDelegs a ha
  · show st.totalStaked = stakeSum stR.nodes
    rw [show stR.nodes = st.nodes.dropLast from rfl,
      stakeSum_dropLast _ hnne,
      show st.nodes.getD (st.nodes.length - 1) zeroNode =
        nodeAt st (st.nodes.length - 1) from rfl,
      ← hlast, hstk, h.total]
    ring
  · intro i hi
    rw [hlenR] at hi
    rw [hnodeR i hi]
    show (nodeAt st i).staked = liveSum (delegsOf st (nodeAt st i).owner)
    exact h.perNode i (by omega)

/-- Invariant preservation for removeNode applied at the removed node's
true array offset k (hraw) with an empty delegator list.  The withdraw
handler does NOT guarantee hraw: it passes the delegator offset, which
is how the conservation claim fails (see below). -/
theorem removeNode_inv (pubKeyAddr : List Nat → Option Nat) (st : GovState)
    (nodeAddr k : Nat) (st9 : GovState) (h : Inv st)
    (hraw : rawOffsByAddr st nodeAddr = k + 1)
    (hempty : delegsOf st nodeAddr = [])
    (hsome : removeNode pubKeyAddr st nodeAddr k = some st9) :
    Inv st9 := by
  by_cases hlast : k ≠ st.nodes.length - 1
  · rcases hpk : pubKeyAddr (nodeAt st (st.nodes.length - 1)).publicKey
      with _ | nk
    · simp only [removeNode] at hsome
      rw [if_pos hlast, hpk] at hsome
      simp at hsome
    · rw [removeNode_eq_swap pubKeyAddr st nodeAddr k nk hlast hpk] at hsome
      have h9 := Option.some.inj hsome
      rw [← h9]
      exact removeNode_swap_inv st nodeAddr k nk h hraw hempty hlast
  · have hl : k = st.nodes.length - 1 := by omega
    rw [removeNode_eq_last pubKeyAddr st nodeAddr k hl] at hsome
    have h9 := Option.some.inj hsome
    rw [← h9]
    exact removeNode_last_inv st nodeAddr k h hraw hempty hl

/-- The invariant never mentions balances, so any balance rewrite
preserves it. -/
theorem inv_balances (st : GovState) (b : List (Nat × Int)) (h : Inv st) :
    Inv { st with balances := b } :=
  ⟨h.addrSound, h.addrComplete, h.delSound, h.delComplete, h.emptyDelegs,
    h.total, h.perNode⟩

theorem doTransfer_inv (st : GovState) (src dst : Nat) (a : Int)
    (h : Inv st) : Inv (doTransfer st src dst a) :=
  inv_balances _ _ (inv_balances _ _ h)

/-- Decode function for the conservation trace: the three stakers'
two-byte public keys decode to node-key addresses 100, 101, 102. -/
def pkC6 : List Nat → Option Nat :=
  fun b =>
    if b = [4, 1] then some 100
    else if b = [4, 2] then some 101
    else if b = [4, 3] then some 102
    else none

/-- Fresh registry with lockup period 5 and a funded contract. -/
def stC6init : GovState :=
  { emptyRegistry 5 with balances := [(govContractAddr, 100)] }

/-- Three nodes staked in order by addresses 10 (3), 11 (5) and 12 (2),
so the node owned by 11 sits at array offset 1. -/
def stC6a : GovState := (stake pkC6 stC6init 10 3 [4, 1] [] [] [] []).2

def stC6b : GovState := (stake pkC6 stC6a 11 5 [4, 2] [] [] [] []).2

def stC6c : GovState := (stake pkC6 stC6b 12 2 [4, 3] [] [] [] []).2

/-- Owner 11 undelegates its self-delegation at time 3. -/
def stC6d : GovState := (undelegate stC6c 11 11 3).2

/-- Claim C6 refuted: along a trace of successful stake, undelegate and
withdraw calls from a fresh registry, conservation breaks.  The final
withdraw (owner 11, node at array offset 1, past the lockup) empties the
node's delegator list and enters the node swap-delete, which the source
keys on the caller's DELEGATOR offset (0) instead of the node's offset:
it copies the last node onto slot 0, destroying node 10's still-staked
record, and pops the tail, leaving the removed node's record in place.
Conservation holds right before that call, the call itself succeeds, and
afterwards totalStaked = 5 while the stored stakes sum to 2 (node 10's
staked 3 was erased), so the conserved predicate fails. -/
theorem withdraw_swap_delete_breaks_conservation :
    (stake pkC6 stC6init 10 3 [4, 1] [] [] [] []).1 = .success ∧
    (stake pkC6 stC6a 11 5 [4, 2] [] [] [] []).1 = .success ∧
    (stake pkC6 stC6b 12 2 [4, 3] [] [] [] []).1 = .success ∧
    (undelegate stC6c 11 11 3).1 = .success ∧
    conserved stC6d ∧
    (withdraw pkC6 stC6d 11 11 9).1 = .success ∧
    (withdraw pkC6 stC6d 11 11 9).2.totalStaked = 5 ∧
    stakeSum (withdraw pkC6 stC6d 11 11 9).2.nodes = 2 ∧
    ¬ conserved (withdraw pkC6 stC6d 11 11 9).2 := by decide

end DexonGov
